import Mathlib

/-!
# Stricks (`stx.c`): a shallow embedding and its verification

The buffer library of `src/src/stx.c` is embedded over a flat, byte-addressed
memory.  A handle (`stx_t`) is the address of the first content byte; the
header (`Head8` or `Head64`) sits right before it and is reached by pointer
arithmetic, exactly as in the C source.

Conventions of the embedding (the usual LP64 data model):

* `size_t` and `intmax_t` are 64 bits wide, `int` is 32 bits wide; unsigned
  arithmetic wraps modulo `2^64`, and the conversion of an out-of-range value
  to `int` keeps the low 32 bits (two's complement);
* multi-byte fields are stored little-endian;
* whether plain `char` is signed is a parameter (`Cfg.charSigned`);
* `STX_FAIL` is used by `stx.c` but defined in none of the files at hand; it
  is a parameter (`Cfg.STX_FAIL`);
* `resize` and `append_count` receive a `void*` and access `->cap`, `->len`
  and `->data` through it; the embedding reads these accesses at the header
  layout selected by the type tag `s[-1]`, the dispatch that `headof`,
  `stx_cap` and `stx_len` spell out;
* the allocator is external: each call that may allocate takes the address the
  allocator answers with (`0` is `NULL`).  `realloc` keeps the first
  `min old new` bytes of the block; `free` drops the block from the allocation
  table and leaves its bytes indeterminate: what the allocator writes into the
  released block is a parameter of `stx_free`;
* the source string of an append is a separate object (as `memcpy` requires),
  given by its bytes; it ends at its first zero byte or at the end of the list.
-/

namespace Stx

/-! ## Memory -/

/-- Byte-addressed memory: the value stored at each address. -/
abbrev Mem := Int → Nat

/-- Store the byte `v` (reduced to 8 bits) at address `a`. -/
def storeByte (m : Mem) (a : Int) (v : Nat) : Mem :=
  fun b => if b = a then v % 256 else m b

/-- Read `k` bytes at `a` as a little-endian unsigned integer. -/
def loadLE (m : Mem) (a : Int) : Nat → Nat
  | 0 => 0
  | k + 1 => m a % 256 + 256 * loadLE m (a + 1) k

/-- Write the low `k` bytes of `v` at `a`, little-endian. -/
def storeLE (m : Mem) (a : Int) : Nat → Nat → Mem
  | 0, _ => m
  | k + 1, v => storeLE (storeByte m a v) (a + 1) k (v / 256)

/-- The heap: memory, the allocation table (size of the live block starting at
an address, `0` when there is none) and the number of allocator calls so far. -/
structure Heap where
  mem : Mem
  size : Int → Nat
  calls : Nat

/-- Parameters the source leaves to the platform or to files not at hand. -/
structure Cfg where
  charSigned : Bool
  STX_FAIL : Int

/-- Value of the `char` stored at `a`, as the `int` it promotes to. -/
def charAt (c : Cfg) (m : Mem) (a : Int) : Int :=
  let b := m a % 256
  if c.charSigned && decide (128 ≤ b) then (b : Int) - 256 else (b : Int)

/-- Conversion of a `size_t` value to `int`: the low 32 bits, two's complement. -/
def toInt32 (x : Nat) : Int :=
  if x % 4294967296 < 2147483648 then ((x % 4294967296 : Nat) : Int)
  else ((x % 4294967296 : Nat) : Int) - 4294967296

/-- The modulus of `size_t` arithmetic. -/
def SIZE_MOD : Nat := 18446744073709551616

/-- Unary minus on `size_t`. -/
def neg64 (x : Nat) : Nat := (SIZE_MOD - x % SIZE_MOD) % SIZE_MOD

/-- Subtraction on `size_t`. -/
def sub64 (x y : Nat) : Nat := (x % SIZE_MOD + (SIZE_MOD - y % SIZE_MOD)) % SIZE_MOD

/-- Addition on `size_t`. -/
def add64 (x y : Nat) : Nat := (x + y) % SIZE_MOD

/-! ## Header layouts -/

def TYPE_SHORT : Int := 8
def TYPE_LONG : Int := 64
def COOKIE : Int := 147

/-- The two header layouts: `Head8` (`short`) and `Head64` (`long`). -/
inductive Tier where
  | short
  | long
  deriving DecidableEq, Repr

namespace Tier

/-- Width in bytes of the `cap` and `len` fields (`uint8_t` / `size_t`). -/
def width : Tier → Nat
  | short => 1
  | long => 8

/-- Value of `offsetof(Head, cap)`. -/
def offCap : Tier → Int
  | short => 0
  | long => 0

/-- Value of `offsetof(Head, len)`. -/
def offLen : Tier → Int
  | short => 1
  | long => 8

/-- Value of `offsetof(Head, cookie)`. -/
def offCookie : Tier → Int
  | short => 2
  | long => 16

/-- Value of `offsetof(Head, type)`. -/
def offType : Tier → Int
  | short => 3
  | long => 17

/-- Value of `offsetof(Head, data)`. -/
def offData : Tier → Int
  | short => 4
  | long => 18

/-- Value of `sizeof(Head)` (the wide header is padded to a multiple of 8). -/
def sizeofHead : Tier → Nat
  | short => 4
  | long => 24

/-- The tag the `INIT` macro stores in `type`: its argument `T`, 8 or 64. -/
def tag : Tier → Nat
  | short => 8
  | long => 64

end Tier

/-- `BLOCK_SZ(T,cap)`: `sizeof(Head##T) + (cap) + 1`, in `size_t`. -/
def BLOCK_SZ (T : Tier) (cap : Nat) : Nat := (T.sizeofHead + cap + 1) % SIZE_MOD

/-- Read of the field `cap` through a header pointer. -/
def getCap (T : Tier) (m : Mem) (head : Int) : Nat := loadLE m (head + T.offCap) T.width

/-- Read of the field `len` through a header pointer. -/
def getLen (T : Tier) (m : Mem) (head : Int) : Nat := loadLE m (head + T.offLen) T.width

/-- Assignment to the field `cap`: the value is converted to the field width. -/
def setCap (T : Tier) (m : Mem) (head : Int) (v : Nat) : Mem :=
  storeLE m (head + T.offCap) T.width v

/-- Assignment to the field `len`: the value is converted to the field width. -/
def setLen (T : Tier) (m : Mem) (head : Int) (v : Nat) : Mem :=
  storeLE m (head + T.offLen) T.width v

/-! ## Private functions of `stx.c` -/

/-- The layout selected by the type tag `s[-1]`: `Head8` when it equals
`TYPE_SHORT`, `Head64` otherwise. -/
def tierOf (c : Cfg) (m : Mem) (s : Int) : Tier :=
  if charAt c m (s - 1) = TYPE_SHORT then Tier.short else Tier.long

/-- `headof(s)`: `s - offsetof(Head, data)` for the layout named by `s[-1]`. -/
def headof (c : Cfg) (m : Mem) (s : Int) : Int :=
  s - (tierOf c m s).offData

/-- `check(head)`: `head && (((char*)head)[-2] == COOKIE)`. -/
def check (c : Cfg) (m : Mem) (head : Int) : Bool :=
  decide (head ≠ 0) && decide (charAt c m (head - 2) = COOKIE)

/-- The macro `CHECK(s)`: `(s && (((char*)s)[-2] == COOKIE))`. -/
def CHECK (c : Cfg) (m : Mem) (s : Int) : Bool :=
  decide (s ≠ 0) && decide (charAt c m (s - 2) = COOKIE)

/-- `strlen(src)`: the number of bytes before the first zero byte. -/
def strlen : List Nat → Nat
  | [] => 0
  | b :: bs => if b % 256 = 0 then 0 else strlen bs + 1

/-- `strnlen(src,n)`: like `strlen`, but looking at no more than `n` bytes. -/
def strnlen : List Nat → Nat → Nat
  | [], _ => 0
  | _ :: _, 0 => 0
  | b :: bs, n + 1 => if b % 256 = 0 then 0 else strnlen bs n + 1

/-- `memcpy(dst, src, k)` from a source object given by its bytes. -/
def memcpy (m : Mem) (dst : Int) (src : List Nat) (k : Nat) : Mem :=
  fun a => if dst ≤ a ∧ a < dst + (k : Int) then src.getD (a - dst).toNat 0 % 256 else m a

/-- The increment length of `append_count`: `n ? strnlen(src,n) : strlen(src)`. -/
def inc_len (src : List Nat) (n : Nat) : Nat :=
  if n ≠ 0 then strnlen src n else strlen src

/-- The test `(intmax_t)newcap < 0` on a `size_t` value. -/
def isNegative (newcap : Nat) : Bool := decide (9223372036854775808 ≤ newcap)

/-- `realloc(p, sz)` answered with `q`: `NULL` leaves everything in place; a
block at `q` receives the first `min old sz` bytes of the old block. -/
def realloc (h : Heap) (p : Int) (sz : Nat) (q : Int) : Heap :=
  if q = 0 then { h with calls := h.calls + 1 }
  else
    { mem := fun a =>
        if q ≤ a ∧ a < q + ((min (h.size p) sz : Nat) : Int) then h.mem (p + (a - q))
        else h.mem a
      size := fun b => if b = q then sz else if b = p then 0 else h.size b
      calls := h.calls + 1 }

/-- `malloc(sz)` answered with `q`: the block is entered in the allocation
table, its contents are whatever the memory holds there. -/
def malloc (h : Heap) (sz : Nat) (q : Int) : Heap :=
  if q = 0 then { h with calls := h.calls + 1 }
  else { h with size := fun b => if b = q then sz else h.size b, calls := h.calls + 1 }

/-- `free(p)`: the block leaves the allocation table and its bytes become
indeterminate; `junk` is what the allocator leaves in them. -/
def free (h : Heap) (p : Int) (junk : Mem) : Heap :=
  { mem := fun a => if p ≤ a ∧ a < p + (h.size p : Int) then junk a else h.mem a
    size := fun b => if b = p then 0 else h.size b
    calls := h.calls + 1 }

/-- `resize(phead, newcap)` on a header of layout `T`; `tmp` is the answer of
`realloc` should it be called.  Returns the result and the value of `*phead`. -/
def resize (T : Tier) (h : Heap) (head : Int) (newcap : Nat) (tmp : Int) :
    Bool × Int × Heap :=
  if isNegative newcap then (false, head, h)
  else if newcap = getCap T h.mem head then (true, head, h)
  else
    let h1 := realloc h head (BLOCK_SZ T newcap) tmp
    if tmp = 0 then (false, head, h1)
    else
      let m1 := if newcap < getLen T h1.mem tmp then setLen T h1.mem tmp newcap else h1.mem
      let m2 := storeByte m1 (tmp + T.offData + (newcap : Int)) 0
      let m3 := setCap T m2 tmp newcap
      (true, tmp, { h1 with mem := m3 })

/-- `append_count(dst, src, n)` on a header of layout `T`; `none` is a null
`src`. -/
def append_count (c : Cfg) (T : Tier) (h : Heap) (dst : Int) (src : Option (List Nat))
    (n : Nat) : Int × Heap :=
  match src with
  | none => (c.STX_FAIL, h)
  | some bytes =>
    let dst_len := getLen T h.mem dst
    let dst_end := dst + T.offData + (dst_len : Int)
    let inc := inc_len bytes n
    if inc > sub64 (getCap T h.mem dst) dst_len then
      (toInt32 (neg64 (add64 dst_len inc)), h)
    else
      let m1 := memcpy h.mem dst_end bytes inc
      let m2 := storeByte m1 (dst_end + (inc : Int)) 0
      let m3 := setLen T m2 dst (add64 (getLen T m2 dst) inc)
      (toInt32 inc, { h with mem := m3 })

/-! ## Public functions of `stx.c` -/

/-- The macro `INIT(head, cap, T)`. -/
def INIT (T : Tier) (m : Mem) (head : Int) (cap : Nat) : Mem :=
  let m1 := setCap T m head cap
  let m2 := storeByte m1 (head + T.offCookie) 147
  let m3 := storeByte m2 (head + T.offType) T.tag
  let m4 := storeByte m3 (head + T.offData + 0) 0
  storeByte m4 (head + T.offData + (cap : Int)) 0

/-- `stx_new(cap)`; `blk` is the answer of `STX_MALLOC`.  Returns the handle
(`0` is `NULL`). -/
def stx_new (h : Heap) (cap : Nat) (blk : Int) : Int × Heap :=
  let T := if cap < 256 then Tier.short else Tier.long
  let h1 := malloc h (BLOCK_SZ T cap) blk
  if blk = 0 then (0, h1)
  else (blk + T.offData, { h1 with mem := INIT T h1.mem blk cap })

/-- The assignment `*(Head*)head = (Head){0}`: the store covers the
`sizeof(Head)` bytes of the header object, all set to zero (for `Head64` that
is 24 bytes, the padding after `type` included). -/
def zeroHead (T : Tier) (m : Mem) (head : Int) : Mem :=
  fun a => if head ≤ a ∧ a < head + (T.sizeofHead : Int) then 0 else m a

/-- `stx_free(s)`: on a handle that `CHECK` accepts the header is zeroed, then
the block is released; `junk` is what the allocator leaves in the released
block. -/
def stx_free (c : Cfg) (h : Heap) (s : Int) (junk : Mem) : Heap :=
  if !CHECK c h.mem s then h
  else
    let T := tierOf c h.mem s
    let head := headof c h.mem s
    free { h with mem := zeroHead T h.mem head } head junk

/-- `stx_resize(pstx, newcap)`; returns the result and the value of `*pstx`
after the call. -/
def stx_resize (c : Cfg) (h : Heap) (s : Int) (newcap : Nat) (tmp : Int) :
    Bool × Int × Heap :=
  let T := tierOf c h.mem s
  let head := headof c h.mem s
  if !check c h.mem head then (false, s, h)
  else
    let r := resize T h head newcap tmp
    (r.1, r.2.1 + T.offData, r.2.2)

/-- `stx_append_count(dst, src, n)`. -/
def stx_append_count (c : Cfg) (h : Heap) (dst : Int) (src : Option (List Nat)) (n : Nat) :
    Int × Heap :=
  let head := headof c h.mem dst
  if !check c h.mem head then (c.STX_FAIL, h)
  else append_count c (tierOf c h.mem dst) h head src n

/-- `stx_cap(s)`. -/
def stx_cap (c : Cfg) (m : Mem) (s : Int) : Nat :=
  if charAt c m (s - 1) = TYPE_SHORT then
    loadLE m (s - Tier.short.offData + Tier.short.offCap) 1
  else
    loadLE m (s - Tier.long.offData + Tier.long.offCap) 8

/-- `stx_len(s)`. -/
def stx_len (c : Cfg) (m : Mem) (s : Int) : Nat :=
  if charAt c m (s - 1) = TYPE_SHORT then
    loadLE m (s - Tier.short.offData + Tier.short.offLen) 1
  else
    loadLE m (s - Tier.long.offData + Tier.long.offLen) 8

/-! ## Buffers -/

/-- A valid buffer: the handle passes the validation of `stx_resize` and
`stx_append_count`, and its length does not exceed its capacity. -/
def Valid (c : Cfg) (h : Heap) (s : Int) : Prop :=
  check c h.mem (headof c h.mem s) = true ∧ stx_len c h.mem s ≤ stx_cap c h.mem s

/-- The block behind the handle is live and large enough for its capacity. -/
def Live (c : Cfg) (h : Heap) (s : Int) : Prop :=
  (tierOf c h.mem s).sizeofHead + stx_cap c h.mem s + 1 ≤ h.size (headof c h.mem s)

/-- Content byte at offset `i` of the buffer behind `s`. -/
def content (m : Mem) (s : Int) (i : Nat) : Nat := m (s + (i : Int))

/-- Both terminators are in place: a zero byte at offset `len` and one at
offset `cap`. -/
def Terminated (c : Cfg) (m : Mem) (s : Int) : Prop :=
  content m s (stx_len c m s) = 0 ∧ content m s (stx_cap c m s) = 0

instance (c : Cfg) (m : Mem) (s : Int) : Decidable (Terminated c m s) := by
  unfold Terminated; infer_instance

instance (c : Cfg) (h : Heap) (s : Int) : Decidable (Valid c h s) := by
  unfold Valid; infer_instance

instance (c : Cfg) (h : Heap) (s : Int) : Decidable (Live c h s) := by
  unfold Live; infer_instance

/-- The memory an append that fits leaves behind. -/
def appended (T : Tier) (m : Mem) (head : Int) (bytes : List Nat) (inc : Nat) : Mem :=
  let dst_end := head + T.offData + (getLen T m head : Int)
  setLen T (storeByte (memcpy m dst_end bytes inc) (dst_end + (inc : Int)) 0) head
    (getLen T m head + inc)

/-- The memory a `resize` that went through `realloc` leaves behind. -/
def resized (T : Tier) (h : Heap) (head : Int) (newcap : Nat) (tmp : Int) : Mem :=
  let h1 := realloc h head (BLOCK_SZ T newcap) tmp
  let m1 := if newcap < getLen T h1.mem tmp then setLen T h1.mem tmp newcap else h1.mem
  let m2 := storeByte m1 (tmp + T.offData + (newcap : Int)) 0
  setCap T m2 tmp newcap

/-! ## Sample configurations and heaps -/

/-- A sample configuration: plain `char` is unsigned, `STX_FAIL` is `INT_MIN`. -/
def sampleCfg : Cfg := { charSigned := false, STX_FAIL := -2147483648 }

/-- The bytes of `"hello"`. -/
def hello : List Nat := [104, 101, 108, 108, 111]

/-- The bytes of `" world!!"`. -/
def world : List Nat := [32, 119, 111, 114, 108, 100, 33, 33]

/-- A narrow buffer at handle `1004` (block at `1000`): capacity 10, length 5,
content `"hello"`.  The bytes two before the block, and two before address
`2000`, happen to hold the cookie value. -/
def helloHeap : Heap :=
  { mem := fun a =>
      if a = 1998 then 147
      else if 998 ≤ a then
        [147, 0, 10, 5, 147, 8, 104, 101, 108, 108, 111].getD (a - 998).toNat 0
      else 0
    size := fun b => if b = 1000 then 15 else 0
    calls := 1 }

/-- A wide buffer at handle `1018` (block at `1000`): capacity `3 * 2^30`,
length 0.  The byte two before the block happens to hold the cookie value. -/
def bigHeap : Heap :=
  { mem := fun a =>
      if a = 998 then 147 else if a = 1003 then 192 else if a = 1016 then 147
      else if a = 1017 then 64 else 0
    size := fun b => if b = 1000 then 3221225497 else 0
    calls := 1 }

/-- A heap with nothing allocated and every byte zero. -/
def zeroHeap : Heap := { mem := fun _ => 0, size := fun _ => 0, calls := 0 }

/-- A heap with nothing allocated whose bytes hold `255`. -/
def staleHeap : Heap := { mem := fun _ => 255, size := fun _ => 0, calls := 0 }

/-- A heap with nothing allocated, zero but for the cookie value at `998`. -/
def luckyHeap : Heap :=
  { mem := fun a => if a = 998 then 147 else 0, size := fun _ => 0, calls := 0 }

/-- A narrow buffer at handle `1004` like `helloHeap`, except that its cookie
byte (address `1002`) is zero; the byte two before the block still holds the
cookie value. -/
def forgedHeap : Heap :=
  { mem := fun a =>
      if 998 ≤ a then
        [147, 0, 10, 5, 0, 8, 104, 101, 108, 108, 111].getD (a - 998).toNat 0
      else 0
    size := fun b => if b = 1000 then 15 else 0
    calls := 1 }

/-- A narrow buffer at handle `1004` (block at `1000`) with capacity 0 and
length 0.  The byte two before the block happens to hold the cookie value. -/
def emptyHeap : Heap :=
  { mem := fun a =>
      if 998 ≤ a then [147, 0, 0, 0, 147, 8, 0].getD (a - 998).toNat 0 else 0
    size := fun b => if b = 1000 then 5 else 0
    calls := 1 }

/-- Modelled from the spec: the constant `STX_FAIL`, which `stx.c` returns and
none of the files at hand defines.  The spec calls it a reserved failure value
of the signed return type, distinct from zero and from every positive value;
the return type of `stx_append_count` in `stx.c` is `int`. -/
def ReservedFail (c : Cfg) : Prop :=
  -2147483648 ≤ c.STX_FAIL ∧ c.STX_FAIL ≠ 0 ∧ ¬ 0 < c.STX_FAIL

instance (c : Cfg) : Decidable (ReservedFail c) := by
  unfold ReservedFail; infer_instance

/-! ## Runs of calls on the two layouts -/

/-- A wide buffer at handle `1018` (block at `1000`): capacity 10, length 5,
content `"hello"`.  The bytes two before the block, and two before address
`2000`, happen to hold the cookie value. -/
def helloWide : Heap :=
  { mem := fun a =>
      if a = 1998 then 147
      else if 998 ≤ a then
        [147, 0, 10, 0, 0, 0, 0, 0, 0, 0, 5, 0, 0, 0, 0, 0, 0, 0, 147, 64,
          104, 101, 108, 108, 111].getD (a - 998).toNat 0
      else 0
    size := fun b => if b = 1000 then 35 else 0
    calls := 1 }

/-- A buffer in its heap: the heap and the handle the caller holds. -/
abbrev Buf := Heap × Int

/-- One call of a sequence.  A resize carries the answers of the allocator for
the two runs of the sequence, the one on the narrow buffer and the one on the
wide buffer. -/
inductive Call where
  | append (src : Option (List Nat)) (n : Nat)
  | resize (newcap : Nat) (tmpShort tmpLong : Int)

/-- The call asks for no capacity of 256 or more, and the allocator does not
fail. -/
def Call.small : Call → Prop
  | Call.append _ _ => True
  | Call.resize newcap tmpShort tmpLong => newcap < 256 ∧ tmpShort ≠ 0 ∧ tmpLong ≠ 0

instance (k : Call) : Decidable k.small := by
  cases k <;> unfold Call.small <;> infer_instance

/-- The answer of the allocator in the run `T`. -/
def answer (T : Tier) (tmpShort tmpLong : Int) : Int :=
  match T with
  | Tier.short => tmpShort
  | Tier.long => tmpLong

/-- One call in the run `T`: the value returned (`true` as 1, `false` as 0) and
the buffer after the call. -/
def call (c : Cfg) (T : Tier) (b : Buf) : Call → Int × Buf
  | Call.append src n =>
    ((stx_append_count c b.1 b.2 src n).1, ((stx_append_count c b.1 b.2 src n).2, b.2))
  | Call.resize newcap tmpShort tmpLong =>
    ((if (stx_resize c b.1 b.2 newcap (answer T tmpShort tmpLong)).1 then 1 else 0),
      ((stx_resize c b.1 b.2 newcap (answer T tmpShort tmpLong)).2.2,
        (stx_resize c b.1 b.2 newcap (answer T tmpShort tmpLong)).2.1))

/-- What a caller can read of a buffer: `stx_cap`, `stx_len` and the content
bytes below the length. -/
def observe (c : Cfg) (b : Buf) : Nat × Nat × List Nat :=
  (stx_cap c b.1.mem b.2, stx_len c b.1.mem b.2,
    (List.range (stx_len c b.1.mem b.2)).map (content b.1.mem b.2))

/-- The run `T` of a sequence of calls: for every call the value returned and
what can be read of the buffer afterwards. -/
def trace (c : Cfg) (T : Tier) : Buf → List Call → List (Int × Nat × Nat × List Nat)
  | _, [] => []
  | b, k :: ks => ((call c T b k).1, observe c (call c T b k).2) :: trace c T (call c T b k).2 ks

/-- The validator accepts the handle before every call of the run. -/
def accepted (c : Cfg) (T : Tier) : Buf → List Call → Bool
  | _, [] => true
  | b, k :: ks => check c b.1.mem (headof c b.1.mem b.2) && accepted c T (call c T b k).2 ks

/-- Two buffers read the same: capacity, length and content below the length. -/
def Same (c : Cfg) (a b : Buf) : Prop :=
  stx_cap c a.1.mem a.2 = stx_cap c b.1.mem b.2 ∧
  stx_len c a.1.mem a.2 = stx_len c b.1.mem b.2 ∧
  ∀ i, i < stx_len c a.1.mem a.2 → content a.1.mem a.2 i = content b.1.mem b.2 i

instance (c : Cfg) (a b : Buf) : Decidable (Same c a b) := by
  unfold Same; infer_instance

/-- The layout-free view of a buffer: capacity, length and content. -/
structure View where
  cap : Nat
  len : Nat
  data : Nat → Nat

/-- One call on the layout-free view, for capacities below 256. -/
def View.call (c : Cfg) (v : View) : Call → Int × View
  | Call.append none _ => (c.STX_FAIL, v)
  | Call.append (some bytes) n =>
    if v.cap - v.len < inc_len bytes n then
      (toInt32 (neg64 (add64 v.len (inc_len bytes n))), v)
    else
      (toInt32 (inc_len bytes n),
        { cap := v.cap
          len := v.len + inc_len bytes n
          data := fun i => if i < v.len then v.data i else bytes.getD (i - v.len) 0 % 256 })
  | Call.resize newcap _ _ => (1, { cap := newcap, len := min v.len newcap, data := v.data })

/-- What can be read of a view. -/
def View.observe (v : View) : Nat × Nat × List Nat :=
  (v.cap, v.len, (List.range v.len).map v.data)

/-- The run of a sequence of calls on a view. -/
def View.trace (c : Cfg) : View → List Call → List (Int × Nat × Nat × List Nat)
  | _, [] => []
  | v, k :: ks => ((v.call c k).1, (v.call c k).2.observe) :: View.trace c (v.call c k).2 ks

/-- The buffer reads as the view. -/
def Shows (c : Cfg) (b : Buf) (v : View) : Prop :=
  stx_cap c b.1.mem b.2 = v.cap ∧ stx_len c b.1.mem b.2 = v.len ∧
  ∀ i, i < v.len → content b.1.mem b.2 i = v.data i

/-- A buffer of layout `T` in good order: length within capacity, capacity
below 256, live block. -/
def Good (c : Cfg) (T : Tier) (b : Buf) : Prop :=
  tierOf c b.1.mem b.2 = T ∧ stx_len c b.1.mem b.2 ≤ stx_cap c b.1.mem b.2 ∧
  Live c b.1 b.2 ∧ stx_cap c b.1.mem b.2 < 256

instance (c : Cfg) (T : Tier) (b : Buf) : Decidable (Good c T b) := by
  unfold Good; infer_instance

/-! ## Reading and writing memory -/

theorem storeByte_apply (m : Mem) (a b : Int) (v : Nat) :
    storeByte m a v b = if b = a then v % 256 else m b := rfl

theorem storeLE_outside (k : Nat) : ∀ (m : Mem) (a : Int) (v : Nat) (b : Int),
    (b < a ∨ a + (k : Int) ≤ b) → storeLE m a k v b = m b := by
  induction k with
  | zero => intro m a v b _; rfl
  | succ k ih =>
    intro m a v b hb
    have h1 : storeLE (storeByte m a v) (a + 1) k (v / 256) b = storeByte m a v b :=
      ih _ _ _ _ (by push_cast at hb; omega)
    have h2 : b ≠ a := by push_cast at hb; omega
    simp only [storeLE, h1, storeByte_apply, if_neg h2]

theorem loadLE_congr (k : Nat) : ∀ (m m' : Mem) (a : Int),
    (∀ b, a ≤ b → b < a + (k : Int) → m' b = m b) → loadLE m' a k = loadLE m a k := by
  induction k with
  | zero => intro m m' a _; rfl
  | succ k ih =>
    intro m m' a hb
    have h1 : m' a = m a := hb a (le_refl _) (by push_cast; omega)
    have h2 : loadLE m' (a + 1) k = loadLE m (a + 1) k :=
      ih m m' (a + 1) (fun b hb1 hb2 => hb b (by omega) (by push_cast; omega))
    simp only [loadLE, h1, h2]

theorem loadLE_storeLE (k : Nat) : ∀ (m : Mem) (a : Int) (v : Nat),
    loadLE (storeLE m a k v) a k = v % 256 ^ k := by
  induction k with
  | zero => intro m a v; simp [loadLE, Nat.mod_one]
  | succ k ih =>
    intro m a v
    have h1 : storeLE (storeByte m a v) (a + 1) k (v / 256) a = v % 256 := by
      rw [storeLE_outside k _ _ _ _ (Or.inl (by omega))]
      simp [storeByte_apply]
    simp only [loadLE, storeLE, h1, ih, Nat.mod_mod]
    rw [pow_succ', Nat.mod_mul]

theorem loadLE_lt (k : Nat) : ∀ (m : Mem) (a : Int), loadLE m a k < 256 ^ k := by
  induction k with
  | zero => intro m a; simp [loadLE]
  | succ k ih =>
    intro m a
    have h1 := ih m (a + 1)
    have h2 : m a % 256 < 256 := Nat.mod_lt _ (by decide)
    simp only [loadLE, pow_succ]
    omega


/-! ## Layout facts -/

theorem Tier.layout (T : Tier) :
    T.offCap = 0 ∧ (T.width : Int) ≤ T.offLen ∧ T.offLen + (T.width : Int) ≤ T.offCookie ∧
      T.offType = T.offCookie + 1 ∧ T.offData = T.offCookie + 2 ∧
      T.offData ≤ (T.sizeofHead : Int) ∧ 1 ≤ T.width ∧ T.width ≤ 8 := by
  cases T <;> simp [Tier.offCap, Tier.width, Tier.offLen, Tier.offCookie, Tier.offType,
    Tier.offData, Tier.sizeofHead]

theorem Tier.pow_width_le (T : Tier) : 256 ^ T.width ≤ SIZE_MOD := by
  cases T <;> simp [Tier.width, SIZE_MOD]

theorem getCap_lt (T : Tier) (m : Mem) (head : Int) : getCap T m head < 256 ^ T.width :=
  loadLE_lt _ _ _

theorem getLen_lt (T : Tier) (m : Mem) (head : Int) : getLen T m head < 256 ^ T.width :=
  loadLE_lt _ _ _

theorem charAt_congr (c : Cfg) {m m' : Mem} {a a' : Int} (h : m' a' = m a) :
    charAt c m' a' = charAt c m a := by
  simp only [charAt, h]

theorem tierOf_congr (c : Cfg) {m m' : Mem} {s : Int} (h : m' (s - 1) = m (s - 1)) :
    tierOf c m' s = tierOf c m s := by
  simp only [tierOf, charAt_congr c h]

theorem stx_len_eq (c : Cfg) (m : Mem) (s : Int) :
    stx_len c m s = getLen (tierOf c m s) m (headof c m s) := by
  unfold stx_len getLen headof tierOf
  split <;> rfl

theorem stx_cap_eq (c : Cfg) (m : Mem) (s : Int) :
    stx_cap c m s = getCap (tierOf c m s) m (headof c m s) := by
  unfold stx_cap getCap headof tierOf
  split <;> rfl

theorem headof_add (c : Cfg) (m : Mem) (s : Int) :
    headof c m s + (tierOf c m s).offData = s := by
  unfold headof; omega

/-- Reading a field back depends only on the bytes of the field. -/
theorem getLen_congr (T : Tier) {m m' : Mem} (head : Int)
    (h : ∀ b, head + T.offLen ≤ b → b < head + T.offLen + (T.width : Int) → m' b = m b) :
    getLen T m' head = getLen T m head :=
  loadLE_congr _ _ _ _ h

theorem getCap_congr (T : Tier) {m m' : Mem} (head : Int)
    (h : ∀ b, head + T.offCap ≤ b → b < head + T.offCap + (T.width : Int) → m' b = m b) :
    getCap T m' head = getCap T m head :=
  loadLE_congr _ _ _ _ h

theorem getLen_setLen (T : Tier) (m : Mem) (head : Int) (v : Nat) :
    getLen T (setLen T m head v) head = v % 256 ^ T.width :=
  loadLE_storeLE _ _ _ _

theorem getCap_setCap (T : Tier) (m : Mem) (head : Int) (v : Nat) :
    getCap T (setCap T m head v) head = v % 256 ^ T.width :=
  loadLE_storeLE _ _ _ _

theorem setLen_outside (T : Tier) (m : Mem) (head : Int) (v : Nat) (b : Int)
    (h : b < head + T.offLen ∨ head + T.offLen + (T.width : Int) ≤ b) :
    setLen T m head v b = m b :=
  storeLE_outside _ _ _ _ _ h

theorem setCap_outside (T : Tier) (m : Mem) (head : Int) (v : Nat) (b : Int)
    (h : b < head + T.offCap ∨ head + T.offCap + (T.width : Int) ≤ b) :
    setCap T m head v b = m b :=
  storeLE_outside _ _ _ _ _ h

/-! ## Integer conversions -/

theorem sub64_of_le {x y : Nat} (hx : x < SIZE_MOD) (hy : y ≤ x) : sub64 x y = x - y := by
  unfold sub64 SIZE_MOD at *; omega

theorem add64_of_lt {x y : Nat} (h : x + y < SIZE_MOD) : add64 x y = x + y := by
  unfold add64; exact Nat.mod_eq_of_lt h

theorem toInt32_of_lt {x : Nat} (h : x < 2147483648) : toInt32 x = (x : Int) := by
  unfold toInt32; 
  have : x % 4294967296 = x := Nat.mod_eq_of_lt (by omega)
  simp [this, h]

theorem toInt32_neg64 {x : Nat} (h0 : 0 < x) (h : x ≤ 2147483648) :
    toInt32 (neg64 x) = -(x : Int) := by
  unfold toInt32 neg64 SIZE_MOD
  have h1 : (18446744073709551616 - x % 18446744073709551616) % 18446744073709551616 % 4294967296
      = 4294967296 - x := by omega
  rw [h1, if_neg (by omega)]
  omega


/-! ## `append_count` -/

theorem append_count_shortfall (c : Cfg) (T : Tier) (h : Heap) (head : Int) (bytes : List Nat)
    (n : Nat) (hle : getLen T h.mem head ≤ getCap T h.mem head)
    (hgt : getCap T h.mem head - getLen T h.mem head < inc_len bytes n) :
    append_count c T h head (some bytes) n =
      (toInt32 (neg64 (add64 (getLen T h.mem head) (inc_len bytes n))), h) := by
  have hC := Nat.lt_of_lt_of_le (getCap_lt T h.mem head) T.pow_width_le
  simp only [append_count, sub64_of_le hC hle, gt_iff_lt, if_pos hgt]

theorem append_count_fits (c : Cfg) (T : Tier) (h : Heap) (head : Int) (bytes : List Nat)
    (n : Nat) (hle : getLen T h.mem head ≤ getCap T h.mem head)
    (hfit : inc_len bytes n ≤ getCap T h.mem head - getLen T h.mem head) :
    append_count c T h head (some bytes) n =
      (toInt32 (inc_len bytes n),
        { h with mem := appended T h.mem head bytes (inc_len bytes n) }) := by
  have hC := Nat.lt_of_lt_of_le (getCap_lt T h.mem head) T.pow_width_le
  obtain ⟨_, h2, h3, h4, h5, _, _, _⟩ := T.layout
  have hlen : getLen T (storeByte (memcpy h.mem (head + T.offData + (getLen T h.mem head : Int))
      bytes (inc_len bytes n)) (head + T.offData + (getLen T h.mem head : Int) +
        (inc_len bytes n : Int)) 0) head = getLen T h.mem head := by
    apply getLen_congr
    intro b hb1 hb2
    have hne : b ≠ head + T.offData + (getLen T h.mem head : Int) + (inc_len bytes n : Int) := by
      omega
    simp only [storeByte_apply, if_neg hne, memcpy]
    rw [if_neg (by omega)]
  simp only [append_count, sub64_of_le hC hle, gt_iff_lt, if_neg (Nat.not_lt.mpr hfit), hlen,
    appended]
  rw [add64_of_lt (by omega)]

theorem appended_len (T : Tier) (m : Mem) (head : Int) (bytes : List Nat) (inc : Nat)
    (hle : getLen T m head ≤ getCap T m head)
    (hfit : inc ≤ getCap T m head - getLen T m head) :
    getLen T (appended T m head bytes inc) head = getLen T m head + inc := by
  have hC := getCap_lt T m head
  rw [appended, getLen_setLen, Nat.mod_eq_of_lt (by omega)]

/-- Outside the `len` field and the bytes written at the end of the content,
an append leaves the memory alone. -/
theorem appended_outside (T : Tier) (m : Mem) (head : Int) (bytes : List Nat) (inc : Nat)
    (b : Int)
    (h1 : b < head + T.offLen ∨ head + T.offLen + (T.width : Int) ≤ b)
    (h2 : b < head + T.offData + (getLen T m head : Int) ∨
      head + T.offData + (getLen T m head : Int) + (inc : Int) < b) :
    appended T m head bytes inc b = m b := by
  have hne : b ≠ head + T.offData + (getLen T m head : Int) + (inc : Int) := by omega
  rw [appended, setLen_outside T _ head _ b h1, storeByte_apply, if_neg hne, memcpy]
  rw [if_neg (by omega)]

theorem appended_copy (T : Tier) (m : Mem) (head : Int) (bytes : List Nat) (inc : Nat)
    (i : Nat) (hi : i < inc) :
    appended T m head bytes inc (head + T.offData + ((getLen T m head + i : Nat) : Int)) =
      bytes.getD i 0 % 256 := by
  obtain ⟨_, h2, h3, h4, h5, _, _, _⟩ := T.layout
  have hne : head + T.offData + ((getLen T m head + i : Nat) : Int) ≠
      head + T.offData + (getLen T m head : Int) + (inc : Int) := by push_cast; omega
  rw [appended, setLen_outside T _ head _ _ (Or.inr (by push_cast; omega)), storeByte_apply,
    if_neg hne, memcpy]
  rw [if_pos (by push_cast; omega)]
  have : (head + T.offData + ((getLen T m head + i : Nat) : Int) -
      (head + T.offData + (getLen T m head : Int))).toNat = i := by push_cast; omega
  rw [this]

theorem appended_terminator (T : Tier) (m : Mem) (head : Int) (bytes : List Nat) (inc : Nat) :
    appended T m head bytes inc (head + T.offData + ((getLen T m head + inc : Nat) : Int)) = 0 := by
  obtain ⟨_, h2, h3, h4, h5, _, _, _⟩ := T.layout
  rw [appended, setLen_outside T _ head _ _ (Or.inr (by push_cast; omega)), storeByte_apply]
  rw [if_pos (by push_cast; omega)]


/-! ## `stx_append_count` on a valid buffer -/

theorem stx_append_count_shortfall (c : Cfg) (h : Heap) (s : Int) (bytes : List Nat) (n : Nat)
    (hv : Valid c h s)
    (hgt : stx_cap c h.mem s - stx_len c h.mem s < inc_len bytes n) :
    stx_append_count c h s (some bytes) n =
      (toInt32 (neg64 (add64 (stx_len c h.mem s) (inc_len bytes n))), h) := by
  obtain ⟨hchk, hle⟩ := hv
  rw [stx_len_eq, stx_cap_eq] at hle hgt
  simp only [stx_append_count, hchk, Bool.not_true, Bool.false_eq_true, if_false]
  rw [append_count_shortfall c _ h _ bytes n hle hgt, stx_len_eq]

theorem stx_append_count_fits (c : Cfg) (h : Heap) (s : Int) (bytes : List Nat) (n : Nat)
    (hv : Valid c h s)
    (hfit : inc_len bytes n ≤ stx_cap c h.mem s - stx_len c h.mem s) :
    stx_append_count c h s (some bytes) n =
      (toInt32 (inc_len bytes n),
        { h with
          mem := (appended (tierOf c h.mem s) h.mem (headof c h.mem s) bytes
            (inc_len bytes n)) }) := by
  obtain ⟨hchk, hle⟩ := hv
  rw [stx_len_eq, stx_cap_eq] at hle hfit
  simp only [stx_append_count, hchk, Bool.not_true, Bool.false_eq_true, if_false]
  rw [append_count_fits c _ h _ bytes n hle hfit]

/-- What a fitting append does to a buffer, read through its handle. -/
theorem appended_spec (c : Cfg) (m : Mem) (s : Int) (bytes : List Nat) (inc : Nat)
    (hle : stx_len c m s ≤ stx_cap c m s)
    (hfit : inc ≤ stx_cap c m s - stx_len c m s) :
    let m' := appended (tierOf c m s) m (headof c m s) bytes inc
    tierOf c m' s = tierOf c m s ∧
    check c m' (headof c m' s) = check c m (headof c m s) ∧
    stx_len c m' s = stx_len c m s + inc ∧
    stx_cap c m' s = stx_cap c m s ∧
    (∀ i, i < stx_len c m s → content m' s i = content m s i) ∧
    (∀ i, i < inc → content m' s (stx_len c m s + i) = bytes.getD i 0 % 256) ∧
    content m' s (stx_len c m s + inc) = 0 := by
  intro m'
  rw [stx_len_eq, stx_cap_eq] at hle hfit
  obtain ⟨h1, h2, h3, h4, h5, _, _, _⟩ := (tierOf c m s).layout
  have hs := headof_add c m s
  have hT : tierOf c m' s = tierOf c m s :=
    tierOf_congr c (appended_outside _ m _ bytes inc _ (Or.inr (by omega)) (Or.inl (by omega)))
  have hH : headof c m' s = headof c m s := by simp only [headof, hT]
  refine ⟨hT, ?_, ?_, ?_, ?_, ?_, ?_⟩
  · simp only [check, hH]
    rw [charAt_congr c (appended_outside _ m _ bytes inc _ (Or.inl (by omega))
      (Or.inl (by omega)))]
  · rw [stx_len_eq, stx_len_eq, hT, hH]
    exact appended_len _ m _ bytes inc hle hfit
  · rw [stx_cap_eq, stx_cap_eq, hT, hH]
    apply getCap_congr
    intro b hb1 hb2
    exact appended_outside _ m _ bytes inc _ (Or.inl (by omega)) (Or.inl (by omega))
  · intro i hi
    rw [stx_len_eq] at hi
    simp only [content]
    exact appended_outside _ m _ bytes inc _ (Or.inr (by omega)) (Or.inl (by omega))
  · intro i hi
    simp only [content]
    rw [stx_len_eq]
    have := appended_copy (tierOf c m s) m (headof c m s) bytes inc i hi
    rw [← this]
    congr 1
    push_cast; omega
  · simp only [content]
    rw [stx_len_eq]
    have := appended_terminator (tierOf c m s) m (headof c m s) bytes inc
    rw [← this]
    congr 1
    push_cast; omega


/-! ## `resize` -/

theorem loadLE_shift (k : Nat) : ∀ (m m' : Mem) (a a' : Int),
    (∀ j : Nat, j < k → m' (a' + (j : Int)) = m (a + (j : Int))) →
    loadLE m' a' k = loadLE m a k := by
  induction k with
  | zero => intro m m' a a' _; rfl
  | succ k ih =>
    intro m m' a a' hb
    have h1 : m' a' = m a := by simpa using hb 0 (Nat.succ_pos k)
    have h2 : loadLE m' (a' + 1) k = loadLE m (a + 1) k := by
      apply ih
      intro j hj
      have := hb (j + 1) (by omega)
      push_cast at this
      rw [show a' + 1 + (j : Int) = a' + ((j : Int) + 1) by omega,
        show a + 1 + (j : Int) = a + ((j : Int) + 1) by omega]
      exact this
    simp only [loadLE, h1, h2]

theorem resize_negative (T : Tier) (h : Heap) (head : Int) (newcap : Nat) (tmp : Int)
    (hneg : isNegative newcap = true) : resize T h head newcap tmp = (false, head, h) := by
  simp only [resize, hneg, if_true]

theorem resize_same (T : Tier) (h : Heap) (head : Int) (newcap : Nat) (tmp : Int)
    (hneg : isNegative newcap = false) (heq : newcap = getCap T h.mem head) :
    resize T h head newcap tmp = (true, head, h) := by
  subst heq
  simp only [resize, hneg, Bool.false_eq_true, if_false, if_true]

theorem resize_moved (T : Tier) (h : Heap) (head : Int) (newcap : Nat) (tmp : Int)
    (hneg : isNegative newcap = false) (hne : newcap ≠ getCap T h.mem head) (htmp : tmp ≠ 0) :
    resize T h head newcap tmp =
      (true, tmp, { realloc h head (BLOCK_SZ T newcap) tmp with
        mem := (resized T h head newcap tmp) }) := by
  simp only [resize, hneg, Bool.false_eq_true, if_false, hne, htmp, resized]

theorem resize_failed (T : Tier) (h : Heap) (head : Int) (newcap : Nat)
    (hneg : isNegative newcap = false) (hne : newcap ≠ getCap T h.mem head) :
    resize T h head newcap 0 = (false, head, { h with calls := h.calls + 1 }) := by
  simp only [resize, hneg, Bool.false_eq_true, if_false, hne, realloc, if_true]

theorem realloc_mem_kept (h : Heap) (p : Int) (sz : Nat) (q : Int) (hq : q ≠ 0) (j : Nat)
    (hj : j < min (h.size p) sz) :
    (realloc h p sz q).mem (q + (j : Int)) = h.mem (p + (j : Int)) := by
  simp only [realloc, if_neg hq]
  rw [if_pos (by omega)]
  congr 1
  omega

theorem realloc_mem_outside (h : Heap) (p : Int) (sz : Nat) (q : Int) (b : Int)
    (hb : b < q ∨ q + ((min (h.size p) sz : Nat) : Int) ≤ b) :
    (realloc h p sz q).mem b = h.mem b := by
  unfold realloc
  split
  · rfl
  · simp only
    rw [if_neg (by omega)]

theorem BLOCK_SZ_of_lt (T : Tier) (n : Nat) (hn : n < 9223372036854775808) :
    BLOCK_SZ T n = T.sizeofHead + n + 1 := by
  unfold BLOCK_SZ SIZE_MOD
  have : T.sizeofHead ≤ 24 := by cases T <;> simp [Tier.sizeofHead]
  omega

/-- What a `resize` through `realloc` leaves in the new block at `tmp`, for a
header at `head` with `len ≤ cap` in a block large enough for `cap`. -/
theorem resized_spec (T : Tier) (h : Heap) (head : Int) (n : Nat) (tmp : Int)
    (htmp : tmp ≠ 0) (hn : n < 9223372036854775808)
    (hsz : T.sizeofHead + getCap T h.mem head + 1 ≤ h.size head) :
    let m' := resized T h head n tmp
    m' (tmp + T.offCookie) = h.mem (head + T.offCookie) ∧
    m' (tmp + T.offType) = h.mem (head + T.offType) ∧
    getCap T m' tmp = n % 256 ^ T.width ∧
    getLen T m' tmp = min (getLen T h.mem head) n ∧
    (∀ i : Nat, i < n → i ≤ getCap T h.mem head →
      m' (tmp + T.offData + (i : Int)) = h.mem (head + T.offData + (i : Int))) ∧
    m' (tmp + T.offData + (n : Int)) = 0 ∧
    (∀ b, b < tmp → m' b = h.mem b) := by
  intro m'
  obtain ⟨h1, h2, h3, h4, h5, h6, h7, h8⟩ := T.layout
  have hB := BLOCK_SZ_of_lt T n hn
  have hw := getLen_lt T h.mem head
  -- the bytes `realloc` carried over
  have hkept : ∀ j : Nat, (j : Int) < T.offData + (n : Int) + 1 →
      (j : Int) < T.offData + (getCap T h.mem head : Int) + 1 →
      (realloc h head (BLOCK_SZ T n) tmp).mem (tmp + (j : Int)) = h.mem (head + (j : Int)) := by
    intro j hj1 hj2
    apply realloc_mem_kept h head _ tmp htmp
    rw [hB]
    omega
  have hlen0 : getLen T (realloc h head (BLOCK_SZ T n) tmp).mem tmp = getLen T h.mem head := by
    apply loadLE_shift
    intro j hj
    have := hkept (T.offLen.toNat + j) (by omega) (by omega)
    rw [show tmp + T.offLen + (j : Int) = tmp + ((T.offLen.toNat + j : Nat) : Int) by
      push_cast; omega, show head + T.offLen + (j : Int) =
        head + ((T.offLen.toNat + j : Nat) : Int) by push_cast; omega]
    exact this
  -- bytes outside the `len` field, the `cap` field and the sentinel
  have hout : ∀ b, (b < tmp + T.offLen ∨ tmp + T.offLen + (T.width : Int) ≤ b) →
      (b < tmp + T.offCap ∨ tmp + T.offCap + (T.width : Int) ≤ b) →
      b ≠ tmp + T.offData + (n : Int) →
      m' b = (realloc h head (BLOCK_SZ T n) tmp).mem b := by
    intro b hb1 hb2 hb3
    simp only [m', resized]
    rw [setCap_outside T _ tmp n b hb2, storeByte_apply, if_neg hb3]
    split
    · exact setLen_outside T _ tmp n b hb1
    · rfl
  refine ⟨?_, ?_, ?_, ?_, ?_, ?_, ?_⟩
  · rw [hout _ (by omega) (by omega) (by omega)]
    have := hkept T.offCookie.toNat (by omega) (by omega)
    rw [show ((T.offCookie.toNat : Nat) : Int) = T.offCookie by omega] at this
    exact this
  · rw [hout _ (by omega) (by omega) (by omega)]
    have := hkept T.offType.toNat (by omega) (by omega)
    rw [show ((T.offType.toNat : Nat) : Int) = T.offType by omega] at this
    exact this
  · simp only [m', resized]
    exact getCap_setCap T _ tmp n
  · simp only [m', resized]
    have hstep : ∀ m1 : Mem, getLen T (setCap T (storeByte m1 (tmp + T.offData + (n : Int)) 0)
        tmp n) tmp = getLen T m1 tmp := by
      intro m1
      apply getLen_congr
      intro b hb1 hb2
      rw [setCap_outside T _ tmp n b (by omega), storeByte_apply, if_neg (by omega)]
    rw [hstep, hlen0]
    split
    · rename_i hlt
      rw [getLen_setLen, Nat.mod_eq_of_lt (by omega)]
      omega
    · rename_i hlt
      rw [hlen0]; omega
  · intro i hi1 hi2
    rw [hout _ (by omega) (by omega) (by omega)]
    have := hkept (T.offData.toNat + i) (by omega) (by omega)
    rw [show tmp + T.offData + (i : Int) = tmp + ((T.offData.toNat + i : Nat) : Int) by
      push_cast; omega, show head + T.offData + (i : Int) =
        head + ((T.offData.toNat + i : Nat) : Int) by push_cast; omega]
    exact this
  · simp only [m', resized]
    rw [setCap_outside T _ tmp n _ (by omega), storeByte_apply, if_pos rfl]
  · intro b hb
    rw [hout _ (by omega) (by omega) (by omega)]
    exact realloc_mem_outside h head _ tmp b (Or.inl hb)


/-! ## `stx_resize` on a valid buffer -/

theorem stx_resize_negative (c : Cfg) (h : Heap) (s : Int) (newcap : Nat) (tmp : Int)
    (hneg : isNegative newcap = true) : stx_resize c h s newcap tmp = (false, s, h) := by
  unfold stx_resize
  simp only [resize_negative _ h _ newcap tmp hneg, headof_add]
  split <;> rfl

theorem stx_resize_same (c : Cfg) (h : Heap) (s : Int) (newcap : Nat) (tmp : Int)
    (hchk : check c h.mem (headof c h.mem s) = true)
    (hneg : isNegative newcap = false) (heq : newcap = stx_cap c h.mem s) :
    stx_resize c h s newcap tmp = (true, s, h) := by
  rw [stx_cap_eq] at heq
  simp only [stx_resize, hchk, Bool.not_true, Bool.false_eq_true, if_false,
    resize_same _ h _ newcap tmp hneg heq, headof_add]

theorem stx_resize_moved (c : Cfg) (h : Heap) (s : Int) (newcap : Nat) (tmp : Int)
    (hchk : check c h.mem (headof c h.mem s) = true)
    (hneg : isNegative newcap = false) (hne : newcap ≠ stx_cap c h.mem s) (htmp : tmp ≠ 0) :
    stx_resize c h s newcap tmp =
      (true, tmp + (tierOf c h.mem s).offData,
        { realloc h (headof c h.mem s) (BLOCK_SZ (tierOf c h.mem s) newcap) tmp with
          mem := (resized (tierOf c h.mem s) h (headof c h.mem s) newcap tmp) }) := by
  rw [stx_cap_eq] at hne
  simp only [stx_resize, hchk, Bool.not_true, Bool.false_eq_true, if_false,
    resize_moved _ h _ newcap tmp hneg hne htmp]

theorem isNegative_of_lt {n : Nat} (hn : n < 9223372036854775808) : isNegative n = false := by
  simp only [isNegative, decide_eq_false_iff_not]; omega

/-- What a resize through `realloc` does to a buffer, read through the old
handle `s` and the new handle `tmp + offsetof(Head, data)`. -/
theorem stx_resized_spec (c : Cfg) (h : Heap) (s : Int) (n : Nat) (tmp : Int)
    (htmp : tmp ≠ 0) (hn : n < 9223372036854775808) (hl : Live c h s) :
    let T := tierOf c h.mem s
    let m' := resized T h (headof c h.mem s) n tmp
    let s' := tmp + T.offData
    tierOf c m' s' = T ∧
    charAt c m' (s' - 2) = charAt c h.mem (s - 2) ∧
    charAt c m' (s' - 1) = charAt c h.mem (s - 1) ∧
    stx_cap c m' s' = n % 256 ^ T.width ∧
    stx_len c m' s' = min (stx_len c h.mem s) n ∧
    (∀ i : Nat, i < n → i ≤ stx_cap c h.mem s → content m' s' i = content h.mem s i) ∧
    content m' s' n = 0 ∧
    (∀ b, b < tmp → m' b = h.mem b) := by
  intro T m' s'
  unfold Live at hl
  rw [stx_cap_eq] at hl
  obtain ⟨h1, h2, h3, h4, h5, h6, h7, h8⟩ := T.layout
  obtain ⟨r1, r2, r3, r4, r5, r6, r7⟩ := resized_spec T h (headof c h.mem s) n tmp htmp hn hl
  have hs := headof_add c h.mem s
  have e1 : s' - 1 = tmp + T.offType := by simp only [s']; omega
  have e2 : s' - 2 = tmp + T.offCookie := by simp only [s']; omega
  have e3 : s - 1 = headof c h.mem s + T.offType := by simp only [T] at *; omega
  have e4 : s - 2 = headof c h.mem s + T.offCookie := by simp only [T] at *; omega
  have hty : charAt c m' (s' - 1) = charAt c h.mem (s - 1) := by
    rw [e1, e3]; exact charAt_congr c r2
  have hT : tierOf c m' s' = T := by
    simp only [tierOf, hty]; rfl
  have hH : headof c m' s' = tmp := by simp only [headof, hT, s']; omega
  refine ⟨hT, ?_, hty, ?_, ?_, ?_, ?_, r7⟩
  · rw [e2, e4]; exact charAt_congr c r1
  · rw [stx_cap_eq, hT, hH]; exact r3
  · rw [stx_len_eq, hT, hH, stx_len_eq]; exact r4
  · intro i hi1 hi2
    rw [stx_cap_eq] at hi2
    have := r5 i hi1 hi2
    simp only [content, s', m']
    rw [this]
    congr 1
    simp only [T] at *; omega
  · simp only [content, s']; exact r6


/-! ## Return values of `stx_append_count` -/

theorem strlen_replicate (k b : Nat) (hb : b % 256 ≠ 0) : strlen (List.replicate k b) = k := by
  induction k with
  | zero => rfl
  | succ k ih => simp only [List.replicate_succ, strlen, if_neg hb, ih]

theorem inc_len_replicate (k b : Nat) (hb : b % 256 ≠ 0) :
    inc_len (List.replicate k b) 0 = k := by
  simp only [inc_len, ne_eq, not_true_eq_false, if_false, strlen_replicate k b hb]

/-- On a valid buffer a shortfall is reported exactly when the increment
exceeds the room, and the buffer is left alone. -/
theorem stx_append_count_shortfall_iff (c : Cfg) (h : Heap) (s : Int) (bytes : List Nat)
    (n : Nat) (hv : Valid c h s) :
    (stx_cap c h.mem s - stx_len c h.mem s < inc_len bytes n →
      stx_append_count c h s (some bytes) n =
        (toInt32 (neg64 (add64 (stx_len c h.mem s) (inc_len bytes n))), h)) ∧
    (inc_len bytes n ≤ stx_cap c h.mem s - stx_len c h.mem s →
      (stx_append_count c h s (some bytes) n).1 = toInt32 (inc_len bytes n)) := by
  constructor
  · exact stx_append_count_shortfall c h s bytes n hv
  · intro hfit
    rw [stx_append_count_fits c h s bytes n hv hfit]

/-- While the required capacity fits an `int`, the shortfall value is its
exact negation. -/
theorem stx_append_count_shortfall_exact (c : Cfg) (h : Heap) (s : Int) (bytes : List Nat)
    (n : Nat) (hv : Valid c h s)
    (hgt : stx_cap c h.mem s - stx_len c h.mem s < inc_len bytes n)
    (hint : stx_len c h.mem s + inc_len bytes n ≤ 2147483648) :
    stx_append_count c h s (some bytes) n =
      (-((stx_len c h.mem s + inc_len bytes n : Nat) : Int), h) := by
  rw [stx_append_count_shortfall c h s bytes n hv hgt,
    add64_of_lt (by unfold SIZE_MOD; omega), toInt32_neg64 (by omega) hint]

/-- While the increment fits an `int`, a negative return leaves the heap as it
was. -/
theorem stx_append_count_negative_unchanged (c : Cfg) (h : Heap) (s : Int) (bytes : List Nat)
    (n : Nat) (hv : Valid c h s) (hint : inc_len bytes n < 2147483648)
    (hneg : (stx_append_count c h s (some bytes) n).1 < 0) :
    (stx_append_count c h s (some bytes) n).2 = h := by
  by_cases hfit : inc_len bytes n ≤ stx_cap c h.mem s - stx_len c h.mem s
  · rw [stx_append_count_fits c h s bytes n hv hfit, toInt32_of_lt hint] at hneg
    simp only at hneg
    omega
  · rw [stx_append_count_shortfall c h s bytes n hv (Nat.lt_of_not_le hfit)]

/-- C1, at a failing input: on the valid wide buffer `bigHeap` (capacity
`3 * 2^30`, length 0) an append of `3 * 2^30` bytes fits and is carried out,
the stored length changes from 0 to `3 * 2^30`, and yet the value returned,
the increment narrowed to `int`, is negative. -/
theorem C1_negative_return_after_write :
    Valid sampleCfg bigHeap 1018 ∧
    (stx_append_count sampleCfg bigHeap 1018 (some (List.replicate 3221225472 65)) 0).1
      = -1073741824 ∧
    stx_len sampleCfg bigHeap.mem 1018 = 0 ∧
    stx_len sampleCfg
      (stx_append_count sampleCfg bigHeap 1018 (some (List.replicate 3221225472 65)) 0).2.mem
      1018 = 3221225472 ∧
    content
      (stx_append_count sampleCfg bigHeap 1018 (some (List.replicate 3221225472 65)) 0).2.mem
      1018 0 = 65 ∧
    content bigHeap.mem 1018 0 = 0 := by
  have hv : Valid sampleCfg bigHeap 1018 := by decide
  have hI : inc_len (List.replicate 3221225472 65) 0 = 3221225472 :=
    inc_len_replicate _ _ (by decide)
  have hcap : stx_cap sampleCfg bigHeap.mem 1018 = 3221225472 := by decide
  have hlen : stx_len sampleCfg bigHeap.mem 1018 = 0 := by decide
  have hfit : inc_len (List.replicate 3221225472 65) 0 ≤
      stx_cap sampleCfg bigHeap.mem 1018 - stx_len sampleCfg bigHeap.mem 1018 := by
    rw [hI, hcap, hlen]
  have hrun := stx_append_count_fits sampleCfg bigHeap 1018 _ 0 hv hfit
  have hspec := appended_spec sampleCfg bigHeap.mem 1018 (List.replicate 3221225472 65)
    3221225472 (by rw [hlen]; exact Nat.zero_le _) (by rw [hcap, hlen])
  refine ⟨hv, ?_, hlen, ?_, ?_, by decide⟩
  · rw [hrun, hI]; decide
  · rw [hrun, hI]
    simp only
    rw [hspec.2.2.1, hlen]
  · rw [hrun, hI]
    simp only
    have := hspec.2.2.2.2.2.1 0 (by decide)
    rw [hlen] at this
    rw [this]
    rfl

/-- C2, at a failing input: on the valid buffer `helloHeap` (capacity 10,
length 5) an append of `2^31` bytes does not fit; the required capacity is
`2^31 + 5`, but the value returned, its negation narrowed to `int`, is the
positive number `2^31 - 5`. -/
theorem C2_shortfall_value_wraps :
    Valid sampleCfg helloHeap 1004 ∧
    stx_cap sampleCfg helloHeap.mem 1004 - stx_len sampleCfg helloHeap.mem 1004
      < inc_len (List.replicate 2147483648 65) 0 ∧
    stx_len sampleCfg helloHeap.mem 1004 + inc_len (List.replicate 2147483648 65) 0
      = 2147483653 ∧
    stx_append_count sampleCfg helloHeap 1004 (some (List.replicate 2147483648 65)) 0
      = (2147483643, helloHeap) := by
  have hv : Valid sampleCfg helloHeap 1004 := by decide
  have hI : inc_len (List.replicate 2147483648 65) 0 = 2147483648 :=
    inc_len_replicate _ _ (by decide)
  have hcap : stx_cap sampleCfg helloHeap.mem 1004 = 10 := by decide
  have hlen : stx_len sampleCfg helloHeap.mem 1004 = 5 := by decide
  have hgt : stx_cap sampleCfg helloHeap.mem 1004 - stx_len sampleCfg helloHeap.mem 1004
      < inc_len (List.replicate 2147483648 65) 0 := by
    rw [hI, hcap, hlen]; decide
  refine ⟨hv, hgt, by rw [hI, hlen], ?_⟩
  rw [stx_append_count_shortfall sampleCfg helloHeap 1004 _ 0 hv hgt, hI, hlen]
  congr 1

/-- C3, at a failing input: on the valid wide buffer `bigHeap` an append of
`2^31` bytes fits, the stored length becomes `2^31`, but the value returned is
`-2^31`, not the increment. -/
theorem C3_success_value_wraps :
    Valid sampleCfg bigHeap 1018 ∧
    inc_len (List.replicate 2147483648 65) 0 = 2147483648 ∧
    inc_len (List.replicate 2147483648 65) 0 ≤
      stx_cap sampleCfg bigHeap.mem 1018 - stx_len sampleCfg bigHeap.mem 1018 ∧
    (stx_append_count sampleCfg bigHeap 1018 (some (List.replicate 2147483648 65)) 0).1
      = -2147483648 ∧
    stx_len sampleCfg
      (stx_append_count sampleCfg bigHeap 1018 (some (List.replicate 2147483648 65)) 0).2.mem
      1018 = 2147483648 := by
  have hv : Valid sampleCfg bigHeap 1018 := by decide
  have hI : inc_len (List.replicate 2147483648 65) 0 = 2147483648 :=
    inc_len_replicate _ _ (by decide)
  have hcap : stx_cap sampleCfg bigHeap.mem 1018 = 3221225472 := by decide
  have hlen : stx_len sampleCfg bigHeap.mem 1018 = 0 := by decide
  have hfit : inc_len (List.replicate 2147483648 65) 0 ≤
      stx_cap sampleCfg bigHeap.mem 1018 - stx_len sampleCfg bigHeap.mem 1018 := by
    rw [hI, hcap, hlen]; decide
  have hrun := stx_append_count_fits sampleCfg bigHeap 1018 _ 0 hv hfit
  have hspec := appended_spec sampleCfg bigHeap.mem 1018 (List.replicate 2147483648 65)
    2147483648 (by rw [hlen]; exact Nat.zero_le _) (by rw [hcap, hlen]; decide)
  refine ⟨hv, hI, hfit, ?_, ?_⟩
  · rw [hrun, hI]; decide
  · rw [hrun, hI]
    simp only
    rw [hspec.2.2.1, hlen]


/-! ## Shortfall, resize, retry -/

set_option maxRecDepth 20000 in
/-- C4, counterexample: `stx_new(10)` on `luckyHeap` yields a narrow buffer the
validator accepts; appending 300 bytes reports the shortfall `-300`; the resize
to 300 succeeds; the same append on the resized handle reports `-300` again and
the length stays 0, because the narrow header keeps the capacity modulo 256. -/
theorem C4_narrow_retry_fails :
    (stx_new luckyHeap 10 1000).1 = 1004 ∧
    (stx_append_count sampleCfg (stx_new luckyHeap 10 1000).2 1004
      (some (List.replicate 300 65)) 0).1 = -300 ∧
    (stx_resize sampleCfg (stx_new luckyHeap 10 1000).2 1004 300 1000).1 = true ∧
    (stx_resize sampleCfg (stx_new luckyHeap 10 1000).2 1004 300 1000).2.1 = 1004 ∧
    (stx_append_count sampleCfg
      (stx_resize sampleCfg (stx_new luckyHeap 10 1000).2 1004 300 1000).2.2 1004
      (some (List.replicate 300 65)) 0).1 = -300 ∧
    stx_len sampleCfg (stx_append_count sampleCfg
      (stx_resize sampleCfg (stx_new luckyHeap 10 1000).2 1004 300 1000).2.2 1004
      (some (List.replicate 300 65)) 0).2.mem 1004 = 0 := by
  decide

/-- C4, amended: on a valid buffer with a live block, when the increment
exceeds the room and the required capacity `L + I` fits an `int` and, for a
narrow buffer, stays below 256: the append returns `-(L + I)` and changes
nothing; the resize to `L + I` returns true when the allocator answers with a
block; and, if the validator accepts the resized handle, the same append
returns `I` and leaves the length at `L + I`. -/
theorem C4_resize_then_retry (c : Cfg) (h : Heap) (s : Int) (bytes : List Nat) (n : Nat)
    (tmp : Int) (hv : Valid c h s) (hl : Live c h s)
    (hgt : stx_cap c h.mem s - stx_len c h.mem s < inc_len bytes n)
    (hint : stx_len c h.mem s + inc_len bytes n < 2147483648)
    (htier : tierOf c h.mem s = Tier.short → stx_len c h.mem s + inc_len bytes n < 256)
    (htmp : tmp ≠ 0)
    (hacc : check c (stx_resize c h s (stx_len c h.mem s + inc_len bytes n) tmp).2.2.mem
      (headof c (stx_resize c h s (stx_len c h.mem s + inc_len bytes n) tmp).2.2.mem
        (stx_resize c h s (stx_len c h.mem s + inc_len bytes n) tmp).2.1) = true) :
    stx_append_count c h s (some bytes) n
      = (-((stx_len c h.mem s + inc_len bytes n : Nat) : Int), h) ∧
    (stx_resize c h s (stx_len c h.mem s + inc_len bytes n) tmp).1 = true ∧
    (stx_append_count c (stx_resize c h s (stx_len c h.mem s + inc_len bytes n) tmp).2.2
      (stx_resize c h s (stx_len c h.mem s + inc_len bytes n) tmp).2.1 (some bytes) n).1
      = (inc_len bytes n : Int) ∧
    stx_len c
      (stx_append_count c (stx_resize c h s (stx_len c h.mem s + inc_len bytes n) tmp).2.2
        (stx_resize c h s (stx_len c h.mem s + inc_len bytes n) tmp).2.1
        (some bytes) n).2.mem
      (stx_resize c h s (stx_len c h.mem s + inc_len bytes n) tmp).2.1
      = stx_len c h.mem s + inc_len bytes n := by
  have hle := hv.2
  have hn : stx_len c h.mem s + inc_len bytes n < 9223372036854775808 := by omega
  have hne : stx_len c h.mem s + inc_len bytes n ≠ stx_cap c h.mem s := by omega
  have hz := stx_resize_moved c h s _ tmp hv.1 (isNegative_of_lt hn) hne htmp
  rw [hz] at hacc ⊢
  simp only at hacc ⊢
  obtain ⟨z1, _, _, z4, z5, _, _, _⟩ := stx_resized_spec c h s _ tmp htmp hn hl
  -- the capacity read back is the one asked for
  have hcap : (stx_len c h.mem s + inc_len bytes n) % 256 ^ (tierOf c h.mem s).width
      = stx_len c h.mem s + inc_len bytes n := by
    apply Nat.mod_eq_of_lt
    cases hT : tierOf c h.mem s with
    | short => have := htier hT; simp only [Tier.width]; omega
    | long => simp only [Tier.width]; omega
  rw [hcap] at z4
  rw [Nat.min_eq_left (Nat.le_add_right _ _)] at z5
  have hv' : Valid c { realloc h (headof c h.mem s) (BLOCK_SZ (tierOf c h.mem s)
      (stx_len c h.mem s + inc_len bytes n)) tmp with
        mem := (resized (tierOf c h.mem s) h (headof c h.mem s)
          (stx_len c h.mem s + inc_len bytes n) tmp) } (tmp + (tierOf c h.mem s).offData) := by
    refine ⟨hacc, ?_⟩
    simp only
    rw [z4, z5]; omega
  have hfit : inc_len bytes n ≤
      stx_cap c (resized (tierOf c h.mem s) h (headof c h.mem s)
        (stx_len c h.mem s + inc_len bytes n) tmp) (tmp + (tierOf c h.mem s).offData) -
      stx_len c (resized (tierOf c h.mem s) h (headof c h.mem s)
        (stx_len c h.mem s + inc_len bytes n) tmp) (tmp + (tierOf c h.mem s).offData) := by
    rw [z4, z5]; omega
  have hspec := appended_spec c (resized (tierOf c h.mem s) h (headof c h.mem s)
    (stx_len c h.mem s + inc_len bytes n) tmp) (tmp + (tierOf c h.mem s).offData) bytes
    (inc_len bytes n) (by rw [z4, z5]; omega) hfit
  refine ⟨stx_append_count_shortfall_exact c h s bytes n hv hgt (by omega), trivial, ?_, ?_⟩
  · rw [stx_append_count_fits c _ _ bytes n hv' hfit, toInt32_of_lt (by omega)]
  · rw [stx_append_count_fits c _ _ bytes n hv' hfit]
    simp only
    rw [hspec.2.2.1, z5]

/-- C4, witness: the example of the specification, with the resize to the
returned magnitude 13 and the block moved to address 2000. -/
theorem C4_resize_then_retry_witness :
    stx_append_count sampleCfg helloHeap 1004 (some world) 0 = (-((5 + 8 : Nat) : Int), helloHeap) ∧
    (stx_resize sampleCfg helloHeap 1004 (5 + 8) 2000).1 = true ∧
    (stx_append_count sampleCfg (stx_resize sampleCfg helloHeap 1004 (5 + 8) 2000).2.2
      (stx_resize sampleCfg helloHeap 1004 (5 + 8) 2000).2.1 (some world) 0).1 = ((8 : Nat) : Int) ∧
    stx_len sampleCfg
      (stx_append_count sampleCfg (stx_resize sampleCfg helloHeap 1004 (5 + 8) 2000).2.2
        (stx_resize sampleCfg helloHeap 1004 (5 + 8) 2000).2.1 (some world) 0).2.mem
      (stx_resize sampleCfg helloHeap 1004 (5 + 8) 2000).2.1 = 5 + 8 :=
  C4_resize_then_retry sampleCfg helloHeap 1004 world 0 2000 (by decide) (by decide)
    (by decide) (by decide) (by decide) (by decide) (by decide)


/-! ## `stx_new` -/

/-- C5, at a failing input: `stx_new` stores the capacity, the cookie, the tag
and the two terminators, but never the length.  On a fresh block whose bytes
hold `255` the length read back is 255 in the narrow tier and `2^64 - 1` in the
wide tier, not 0. -/
theorem C5_length_not_initialised :
    (stx_new staleHeap 10 1000).1 = 1004 ∧
    stx_cap sampleCfg (stx_new staleHeap 10 1000).2.mem 1004 = 10 ∧
    stx_len sampleCfg (stx_new staleHeap 10 1000).2.mem 1004 = 255 ∧
    (stx_new staleHeap 300 1000).1 = 1018 ∧
    stx_cap sampleCfg (stx_new staleHeap 300 1000).2.mem 1018 = 300 ∧
    stx_len sampleCfg (stx_new staleHeap 300 1000).2.mem 1018 = 18446744073709551615 := by
  decide

/-- C6, at a failing input: after `stx_new(10)` on the all-zero heap the cookie
sits at address 1002, two bytes before the handle 1004, but `check(headof(s))`
reads address 998, two bytes before the block.  Whatever the configuration,
`stx_append_count(h, "hello", 0)` returns `STX_FAIL` and `stx_resize` returns
false, the heap unchanged. -/
theorem C6_live_handle_rejected (c : Cfg) (tmp : Int) :
    (stx_new zeroHeap 10 1000).1 = 1004 ∧
    (stx_new zeroHeap 10 1000).2.mem 1002 = 147 ∧
    headof c (stx_new zeroHeap 10 1000).2.mem 1004 = 1000 ∧
    check c (stx_new zeroHeap 10 1000).2.mem 1000 = false ∧
    stx_append_count c (stx_new zeroHeap 10 1000).2 1004 (some hello) 0
      = (c.STX_FAIL, (stx_new zeroHeap 10 1000).2) ∧
    stx_resize c (stx_new zeroHeap 10 1000).2 1004 20 tmp
      = (false, 1004, (stx_new zeroHeap 10 1000).2) := by
  obtain ⟨sg, fail⟩ := c
  have hhead : headof ⟨sg, fail⟩ (stx_new zeroHeap 10 1000).2.mem 1004 = 1000 := by
    cases sg <;> rfl
  have hchk : check ⟨sg, fail⟩ (stx_new zeroHeap 10 1000).2.mem 1000 = false := by
    cases sg <;> rfl
  refine ⟨rfl, rfl, hhead, hchk, ?_, ?_⟩
  · simp only [stx_append_count, hhead, hchk, Bool.not_false, if_true]
  · simp only [stx_resize, hhead, hchk, Bool.not_false, if_true]


/-! ## Growing and shrinking -/

/-- C7, counterexample: the narrow buffer `helloHeap` (capacity 10, length 5)
is valid, live and terminated; resizing it to 300 returns true, yet the
capacity read back is 44, not 300. -/
theorem C7_narrow_capacity_wraps :
    Valid sampleCfg helloHeap 1004 ∧ Live sampleCfg helloHeap 1004 ∧
    Terminated sampleCfg helloHeap.mem 1004 ∧
    stx_len sampleCfg helloHeap.mem 1004 ≤ 300 ∧
    (stx_resize sampleCfg helloHeap 1004 300 2000).1 = true ∧
    stx_cap sampleCfg (stx_resize sampleCfg helloHeap 1004 300 2000).2.2.mem
      (stx_resize sampleCfg helloHeap 1004 300 2000).2.1 = 44 := by
  decide

/-- C7, amended: on a valid, live, terminated buffer of length `L`, for every
`n ≥ L` that is non-negative as a signed value and, for a narrow buffer, below
256, when the allocator answers with a block `stx_resize` returns true;
afterwards the capacity is `n`, the length is `L`, the content at offsets
`0..L` is unchanged and the byte at offset `n` is zero. -/
theorem C7_resize_up (c : Cfg) (h : Heap) (s : Int) (n : Nat) (tmp : Int)
    (hv : Valid c h s) (hl : Live c h s) (ht : Terminated c h.mem s)
    (hn : n < 9223372036854775808) (hge : stx_len c h.mem s ≤ n)
    (htier : tierOf c h.mem s = Tier.short → n < 256) (htmp : tmp ≠ 0) :
    (stx_resize c h s n tmp).1 = true ∧
    stx_cap c (stx_resize c h s n tmp).2.2.mem (stx_resize c h s n tmp).2.1 = n ∧
    stx_len c (stx_resize c h s n tmp).2.2.mem (stx_resize c h s n tmp).2.1
      = stx_len c h.mem s ∧
    (∀ i, i ≤ stx_len c h.mem s →
      content (stx_resize c h s n tmp).2.2.mem (stx_resize c h s n tmp).2.1 i
        = content h.mem s i) ∧
    content (stx_resize c h s n tmp).2.2.mem (stx_resize c h s n tmp).2.1 n = 0 := by
  by_cases heq : n = stx_cap c h.mem s
  · rw [stx_resize_same c h s n tmp hv.1 (isNegative_of_lt hn) heq]
    refine ⟨rfl, heq.symm, rfl, fun _ _ => rfl, ?_⟩
    simp only
    rw [heq]; exact ht.2
  · rw [stx_resize_moved c h s n tmp hv.1 (isNegative_of_lt hn) heq htmp]
    simp only
    obtain ⟨_, _, _, z4, z5, z6, z7, _⟩ := stx_resized_spec c h s n tmp htmp hn hl
    refine ⟨trivial, ?_, ?_, ?_, z7⟩
    · rw [z4]
      apply Nat.mod_eq_of_lt
      cases hT : tierOf c h.mem s with
      | short => have := htier hT; simp only [Tier.width]; omega
      | long => simp only [Tier.width]; omega
    · rw [z5]; exact Nat.min_eq_left hge
    · intro i hi
      by_cases hin : i < n
      · exact z6 i hin (Nat.le_trans hi hv.2)
      · have hi' : i = n := by omega
        have hL : stx_len c h.mem s = n := by omega
        rw [hi', z7]
        have := ht.1
        rw [hL] at this
        exact this.symm

/-- C7, witness: the buffer `helloHeap` resized to 20, the block moved to
address 2000. -/
theorem C7_resize_up_witness :
    (stx_resize sampleCfg helloHeap 1004 20 2000).1 = true ∧
    stx_cap sampleCfg (stx_resize sampleCfg helloHeap 1004 20 2000).2.2.mem
      (stx_resize sampleCfg helloHeap 1004 20 2000).2.1 = 20 ∧
    stx_len sampleCfg (stx_resize sampleCfg helloHeap 1004 20 2000).2.2.mem
      (stx_resize sampleCfg helloHeap 1004 20 2000).2.1
      = stx_len sampleCfg helloHeap.mem 1004 ∧
    (∀ i, i ≤ stx_len sampleCfg helloHeap.mem 1004 →
      content (stx_resize sampleCfg helloHeap 1004 20 2000).2.2.mem
        (stx_resize sampleCfg helloHeap 1004 20 2000).2.1 i
        = content helloHeap.mem 1004 i) ∧
    content (stx_resize sampleCfg helloHeap 1004 20 2000).2.2.mem
      (stx_resize sampleCfg helloHeap 1004 20 2000).2.1 20 = 0 :=
  C7_resize_up sampleCfg helloHeap 1004 20 2000 (by decide) (by decide) (by decide)
    (by decide) (by decide) (by decide) (by decide)

/-- C8: on a valid, live buffer of length `L`, for every `n < L` (non-negative
as a signed value), when the allocator answers with a block `stx_resize`
returns true; afterwards length and capacity are both `n`, the first `n`
content bytes are the old ones, and the byte at offset `n` is zero. -/
theorem C8_resize_truncates (c : Cfg) (h : Heap) (s : Int) (n : Nat) (tmp : Int)
    (hv : Valid c h s) (hl : Live c h s)
    (hn : n < 9223372036854775808) (hlt : n < stx_len c h.mem s) (htmp : tmp ≠ 0) :
    (stx_resize c h s n tmp).1 = true ∧
    stx_len c (stx_resize c h s n tmp).2.2.mem (stx_resize c h s n tmp).2.1 = n ∧
    stx_cap c (stx_resize c h s n tmp).2.2.mem (stx_resize c h s n tmp).2.1 = n ∧
    (∀ i, i < n →
      content (stx_resize c h s n tmp).2.2.mem (stx_resize c h s n tmp).2.1 i
        = content h.mem s i) ∧
    content (stx_resize c h s n tmp).2.2.mem (stx_resize c h s n tmp).2.1 n = 0 := by
  have hle := hv.2
  have hne : n ≠ stx_cap c h.mem s := by omega
  rw [stx_resize_moved c h s n tmp hv.1 (isNegative_of_lt hn) hne htmp]
  simp only
  obtain ⟨_, _, _, z4, z5, z6, z7, _⟩ := stx_resized_spec c h s n tmp htmp hn hl
  have hw : stx_len c h.mem s < 256 ^ (tierOf c h.mem s).width := by
    rw [stx_len_eq]; exact getLen_lt _ _ _
  refine ⟨trivial, ?_, ?_, ?_, z7⟩
  · rw [z5]; exact Nat.min_eq_right (Nat.le_of_lt hlt)
  · rw [z4]; exact Nat.mod_eq_of_lt (by omega)
  · intro i hi
    exact z6 i hi (by omega)

/-- C8, witness: the buffer `helloHeap` (length 5) resized to 3. -/
theorem C8_resize_truncates_witness :
    (stx_resize sampleCfg helloHeap 1004 3 2000).1 = true ∧
    stx_len sampleCfg (stx_resize sampleCfg helloHeap 1004 3 2000).2.2.mem
      (stx_resize sampleCfg helloHeap 1004 3 2000).2.1 = 3 ∧
    stx_cap sampleCfg (stx_resize sampleCfg helloHeap 1004 3 2000).2.2.mem
      (stx_resize sampleCfg helloHeap 1004 3 2000).2.1 = 3 ∧
    (∀ i, i < 3 →
      content (stx_resize sampleCfg helloHeap 1004 3 2000).2.2.mem
        (stx_resize sampleCfg helloHeap 1004 3 2000).2.1 i
        = content helloHeap.mem 1004 i) ∧
    content (stx_resize sampleCfg helloHeap 1004 3 2000).2.2.mem
      (stx_resize sampleCfg helloHeap 1004 3 2000).2.1 3 = 0 :=
  C8_resize_truncates sampleCfg helloHeap 1004 3 2000 (by decide) (by decide) (by decide)
    (by decide) (by decide)


/-! ## Rejected requests and `stx_free` -/

/-- C9: a capacity that is negative as an `intmax_t` is rejected: whatever the
allocator would have answered, `stx_resize` returns false, the handle is the
one passed in, and the heap (memory, allocation table and count of allocator
calls) is the one before the call. -/
theorem C9_negative_capacity_rejected (c : Cfg) (h : Heap) (s : Int) (newcap : Nat)
    (tmp : Int) (hneg : 9223372036854775808 ≤ newcap) :
    stx_resize c h s newcap tmp = (false, s, h) :=
  stx_resize_negative c h s newcap tmp (by simp only [isNegative, decide_eq_true_eq]; exact hneg)

/-- C9, witness: the valid buffer `helloHeap` and the capacity `2^64 - 1`,
which is `-1` as a signed value. -/
theorem C9_negative_capacity_rejected_witness :
    Valid sampleCfg helloHeap 1004 ∧
    stx_resize sampleCfg helloHeap 1004 18446744073709551615 2000 = (false, 1004, helloHeap) :=
  ⟨by decide, C9_negative_capacity_rejected sampleCfg helloHeap 1004 18446744073709551615 2000
    (by decide)⟩

/-- The validator of `stx_append_count` and `stx_resize` on a stale handle:
after `stx_free` of the wide buffer `helloWide`, with the released bytes left
in place, `CHECK` rejects the handle, yet `check(headof(s))` still reads the
byte two before the block and accepts, and `stx_resize` through the stale
handle returns true. -/
theorem stale_handle_passes_check :
    CHECK sampleCfg helloWide.mem 1018 = true ∧
    CHECK sampleCfg
      (stx_free sampleCfg helloWide 1018 (zeroHead Tier.long helloWide.mem 1000)).mem 1018
      = false ∧
    check sampleCfg
      (stx_free sampleCfg helloWide 1018 (zeroHead Tier.long helloWide.mem 1000)).mem
      (headof sampleCfg
        (stx_free sampleCfg helloWide 1018 (zeroHead Tier.long helloWide.mem 1000)).mem 1018)
      = true ∧
    (stx_resize sampleCfg
      (stx_free sampleCfg helloWide 1018 (zeroHead Tier.long helloWide.mem 1000)) 1018 5
      2000).1 = true := by
  decide

/-- C13, at a failing input: the cookie byte of `forgedHeap`, two before the
handle, is 0, so `CHECK` rejects the handle; `check(headof(s))` reads the byte
two before the block, finds the cookie value there and accepts.
`stx_append_count` appends 3 bytes and returns 3, `stx_resize` moves the block
and returns true with a new handle. -/
theorem C13_wrong_cookie_accepted :
    forgedHeap.mem (1004 - 2) = 0 ∧
    CHECK sampleCfg forgedHeap.mem 1004 = false ∧
    (stx_append_count sampleCfg forgedHeap 1004 (some [97, 98, 99]) 0).1 = 3 ∧
    stx_len sampleCfg forgedHeap.mem 1004 = 5 ∧
    stx_len sampleCfg (stx_append_count sampleCfg forgedHeap 1004 (some [97, 98, 99]) 0).2.mem
      1004 = 8 ∧
    content (stx_append_count sampleCfg forgedHeap 1004 (some [97, 98, 99]) 0).2.mem 1004 5
      = 97 ∧
    (stx_resize sampleCfg forgedHeap 1004 20 2000).1 = true ∧
    (stx_resize sampleCfg forgedHeap 1004 20 2000).2.1 = 2004 := by
  decide

/-- C20, at failing inputs: on the buffer `stx_new(10)` builds in the all-zero
heap `CHECK(s)` is true and `check(headof(s))` is false; on `forgedHeap` it is
the other way round.  `check(headof(s))` reads address `s - 6` there, `CHECK(s)`
reads `s - 2`. -/
theorem C20_validators_disagree :
    CHECK sampleCfg (stx_new zeroHeap 10 1000).2.mem 1004 = true ∧
    check sampleCfg (stx_new zeroHeap 10 1000).2.mem
      (headof sampleCfg (stx_new zeroHeap 10 1000).2.mem 1004) = false ∧
    CHECK sampleCfg forgedHeap.mem 1004 = false ∧
    check sampleCfg forgedHeap.mem (headof sampleCfg forgedHeap.mem 1004) = true ∧
    headof sampleCfg forgedHeap.mem 1004 - 2 = 1004 - 6 := by
  decide

/-- The byte `check(headof(s))` compares with the cookie sits
`offsetof(Head, data) + 2` bytes before the handle. -/
theorem check_headof (c : Cfg) (m : Mem) (s : Int) :
    check c m (headof c m s) =
      (decide (headof c m s ≠ 0) &&
        decide (charAt c m (s - ((tierOf c m s).offData + 2)) = COOKIE)) := by
  simp only [check, headof, Int.sub_sub]

/-! ## Resizes that change nothing -/

/-- C18: when `realloc` fails (answers `NULL`) on a valid buffer asked for a
non-negative capacity other than its own, `stx_resize` returns false, the
handle is the one passed in, and memory and allocation table are untouched:
the heap differs only in the count of allocator calls. -/
theorem C18_realloc_failure (c : Cfg) (h : Heap) (s : Int) (newcap : Nat)
    (hv : Valid c h s) (hn : newcap < 9223372036854775808)
    (hne : newcap ≠ stx_cap c h.mem s) :
    stx_resize c h s newcap 0 = (false, s, { h with calls := h.calls + 1 }) := by
  rw [stx_cap_eq] at hne
  simp only [stx_resize, hv.1, Bool.not_true, Bool.false_eq_true, if_false,
    resize_failed _ h _ newcap (isNegative_of_lt hn) hne, headof_add]

/-- C18, witness: the buffer `helloHeap` asked for capacity 20 while the
allocator fails. -/
theorem C18_realloc_failure_witness :
    stx_resize sampleCfg helloHeap 1004 20 0
      = (false, 1004, { helloHeap with calls := helloHeap.calls + 1 }) :=
  C18_realloc_failure sampleCfg helloHeap 1004 20 (by decide) (by decide) (by decide)

/-- C19: on a valid buffer with a live block (of a size below `2^63`, as every
block an allocator hands out is), `stx_resize` to the capacity the buffer has
returns true with the same handle and the same heap, whatever the allocator
would have answered: memory, allocation table and the count of allocator calls
are as before. -/
theorem C19_resize_same_capacity (c : Cfg) (h : Heap) (s : Int) (tmp : Int)
    (hv : Valid c h s) (hl : Live c h s)
    (hsz : h.size (headof c h.mem s) < 9223372036854775808) :
    stx_resize c h s (stx_cap c h.mem s) tmp = (true, s, h) := by
  unfold Live at hl
  exact stx_resize_same c h s _ tmp hv.1 (isNegative_of_lt (by omega)) rfl

/-- C19, witness: the narrow buffer `helloHeap` and the wide buffer `bigHeap`,
each resized to its own capacity. -/
theorem C19_resize_same_capacity_witness :
    stx_resize sampleCfg helloHeap 1004 (stx_cap sampleCfg helloHeap.mem 1004) 2000
      = (true, 1004, helloHeap) ∧
    stx_resize sampleCfg bigHeap 1018 (stx_cap sampleCfg bigHeap.mem 1018) 2000
      = (true, 1018, bigHeap) :=
  ⟨C19_resize_same_capacity sampleCfg helloHeap 1004 2000 (by decide) (by decide) (by decide),
    C19_resize_same_capacity sampleCfg bigHeap 1018 2000 (by decide) (by decide) (by decide)⟩


/-! ## The increment length -/

theorem strlen_le_length (bytes : List Nat) : strlen bytes ≤ bytes.length := by
  induction bytes with
  | nil => exact Nat.le_refl _
  | cons b bs ih =>
    simp only [strlen, List.length_cons]
    split <;> omega

/-- `strnlen(src, n)` is the smaller of the natural length and `n`. -/
theorem strnlen_eq_min (bytes : List Nat) : ∀ n, strnlen bytes n = min (strlen bytes) n := by
  induction bytes with
  | nil => intro n; simp [strnlen, strlen]
  | cons b bs ih =>
    intro n
    cases n with
    | zero => simp [strnlen]
    | succ n =>
      simp only [strnlen, strlen]
      split
      · simp
      · rw [ih n]; omega

/-- The increment length is `min S maxLen` for `maxLen > 0` and `S` for
`maxLen = 0`, with `S` the natural length of the source. -/
theorem inc_len_eq (bytes : List Nat) (n : Nat) :
    inc_len bytes n = if n = 0 then strlen bytes else min (strlen bytes) n := by
  unfold inc_len
  by_cases hn : n = 0
  · simp [hn]
  · simp [hn, strnlen_eq_min]

/-- C17, at a failing input: on the valid wide buffer `bigHeap` (capacity
`3 * 2^30`, length 0), for a source of natural length `3 * 2^30` and
`maxLen = 2^31`, the increment length is `min S maxLen = 2^31`, the append fits
and stores length `2^31`, and the value returned is `-2^31`. -/
theorem C17_bounded_increment_wraps :
    Valid sampleCfg bigHeap 1018 ∧
    strlen (List.replicate 3221225472 65) = 3221225472 ∧
    inc_len (List.replicate 3221225472 65) 2147483648 = 2147483648 ∧
    inc_len (List.replicate 3221225472 65) 2147483648 ≤
      stx_cap sampleCfg bigHeap.mem 1018 - stx_len sampleCfg bigHeap.mem 1018 ∧
    (stx_append_count sampleCfg bigHeap 1018 (some (List.replicate 3221225472 65))
      2147483648).1 = -2147483648 ∧
    stx_len sampleCfg (stx_append_count sampleCfg bigHeap 1018
      (some (List.replicate 3221225472 65)) 2147483648).2.mem 1018 = 2147483648 := by
  have hv : Valid sampleCfg bigHeap 1018 := by decide
  have hS : strlen (List.replicate 3221225472 65) = 3221225472 :=
    strlen_replicate _ _ (by decide)
  have hI : inc_len (List.replicate 3221225472 65) 2147483648 = 2147483648 := by
    rw [inc_len_eq, hS]; decide
  have hcap : stx_cap sampleCfg bigHeap.mem 1018 = 3221225472 := by decide
  have hlen : stx_len sampleCfg bigHeap.mem 1018 = 0 := by decide
  have hfit : inc_len (List.replicate 3221225472 65) 2147483648 ≤
      stx_cap sampleCfg bigHeap.mem 1018 - stx_len sampleCfg bigHeap.mem 1018 := by
    rw [hI, hcap, hlen]; decide
  have hrun := stx_append_count_fits sampleCfg bigHeap 1018 _ 2147483648 hv hfit
  have hspec := appended_spec sampleCfg bigHeap.mem 1018 (List.replicate 3221225472 65)
    2147483648 (by rw [hlen]; exact Nat.zero_le _) (by rw [hcap, hlen]; decide)
  refine ⟨hv, hS, hI, hfit, ?_, ?_⟩
  · rw [hrun, hI]; decide
  · rw [hrun, hI]
    simp only
    rw [hspec.2.2.1, hlen]

/-! ## Header bytes across calls -/

/-- `stx_new` stores the cookie two bytes before the handle and the tag of the
chosen layout one byte before it. -/
theorem stx_new_header (h : Heap) (cap : Nat) (blk : Int) (hblk : blk ≠ 0) :
    (stx_new h cap blk).2.mem ((stx_new h cap blk).1 - 2) = 147 ∧
    (stx_new h cap blk).2.mem ((stx_new h cap blk).1 - 1)
      = (if cap < 256 then Tier.short else Tier.long).tag := by
  generalize hT : (if cap < 256 then Tier.short else Tier.long) = T
  obtain ⟨h1, h2, h3, h4, h5, _, _, _⟩ := T.layout
  have htag : T.tag % 256 = T.tag := by cases T <;> rfl
  simp only [stx_new, hT, if_neg hblk, INIT, storeByte_apply]
  constructor
  · rw [if_neg (by omega), if_neg (by omega), if_neg (by omega), if_pos (by omega)]
  · rw [if_neg (by omega), if_neg (by omega), if_pos (by omega), htag]

/-- C16: on a valid buffer with a live block, the tag byte `s[-1]` and the
cookie byte `s[-2]` read through the handle after any `stx_append_count` call,
and through the handle `stx_resize` leaves in `*pstx` after any `stx_resize`
call (whatever the capacity asked for and the answer of the allocator), are the
bytes read through the handle before the call. -/
theorem C16_tag_and_cookie_kept (c : Cfg) (h : Heap) (s : Int)
    (hv : Valid c h s) (hl : Live c h s) :
    (∀ (src : Option (List Nat)) (n : Nat),
      (stx_append_count c h s src n).2.mem (s - 1) = h.mem (s - 1) ∧
      (stx_append_count c h s src n).2.mem (s - 2) = h.mem (s - 2)) ∧
    (∀ (newcap : Nat) (tmp : Int),
      (stx_resize c h s newcap tmp).2.2.mem ((stx_resize c h s newcap tmp).2.1 - 1)
        = h.mem (s - 1) ∧
      (stx_resize c h s newcap tmp).2.2.mem ((stx_resize c h s newcap tmp).2.1 - 2)
        = h.mem (s - 2)) := by
  obtain ⟨h1, h2, h3, h4, h5, _, h7, _⟩ := (tierOf c h.mem s).layout
  have hs := headof_add c h.mem s
  constructor
  · intro src n
    cases src with
    | none =>
      simp only [stx_append_count, hv.1, Bool.not_true, Bool.false_eq_true, if_false,
        append_count, and_self]
    | some bytes =>
      by_cases hfit : inc_len bytes n ≤ stx_cap c h.mem s - stx_len c h.mem s
      · rw [stx_append_count_fits c h s bytes n hv hfit]
        simp only
        constructor
        · exact appended_outside _ _ _ _ _ _ (Or.inr (by omega)) (Or.inl (by omega))
        · exact appended_outside _ _ _ _ _ _ (Or.inr (by omega)) (Or.inl (by omega))
      · rw [stx_append_count_shortfall c h s bytes n hv (Nat.lt_of_not_le hfit)]
        exact ⟨rfl, rfl⟩
  · intro newcap tmp
    by_cases hneg : isNegative newcap = true
    · rw [stx_resize_negative c h s newcap tmp hneg]; exact ⟨rfl, rfl⟩
    · have hneg' : isNegative newcap = false := by simpa using hneg
      have hn : newcap < 9223372036854775808 := by
        simp only [isNegative, decide_eq_false_iff_not] at hneg'; omega
      by_cases heq : newcap = stx_cap c h.mem s
      · rw [stx_resize_same c h s newcap tmp hv.1 hneg' heq]; exact ⟨rfl, rfl⟩
      · by_cases htmp : tmp = 0
        · subst htmp
          rw [stx_cap_eq] at heq
          simp only [stx_resize, hv.1, Bool.not_true, Bool.false_eq_true, if_false,
            resize_failed _ h _ newcap hneg' heq, headof_add, and_self]
        · rw [stx_resize_moved c h s newcap tmp hv.1 hneg' heq htmp]
          simp only
          unfold Live at hl
          rw [stx_cap_eq] at hl
          obtain ⟨r1, r2, _⟩ := resized_spec (tierOf c h.mem s) h (headof c h.mem s) newcap tmp
            htmp hn hl
          constructor
          · rw [show tmp + (tierOf c h.mem s).offData - 1 = tmp + (tierOf c h.mem s).offType by
              omega, r2]
            congr 1; omega
          · rw [show tmp + (tierOf c h.mem s).offData - 2 = tmp + (tierOf c h.mem s).offCookie by
              omega, r1]
            congr 1; omega

/-- C16, witness: the buffer `helloHeap`. -/
theorem C16_tag_and_cookie_kept_witness :
    (∀ (src : Option (List Nat)) (n : Nat),
      (stx_append_count sampleCfg helloHeap 1004 src n).2.mem (1004 - 1)
        = helloHeap.mem (1004 - 1) ∧
      (stx_append_count sampleCfg helloHeap 1004 src n).2.mem (1004 - 2)
        = helloHeap.mem (1004 - 2)) ∧
    (∀ (newcap : Nat) (tmp : Int),
      (stx_resize sampleCfg helloHeap 1004 newcap tmp).2.2.mem
        ((stx_resize sampleCfg helloHeap 1004 newcap tmp).2.1 - 1) = helloHeap.mem (1004 - 1) ∧
      (stx_resize sampleCfg helloHeap 1004 newcap tmp).2.2.mem
        ((stx_resize sampleCfg helloHeap 1004 newcap tmp).2.1 - 2) = helloHeap.mem (1004 - 2)) :=
  C16_tag_and_cookie_kept sampleCfg helloHeap 1004 (by decide) (by decide)


/-! ## The null source -/

/-- On a valid buffer a null source is answered with `STX_FAIL`, the heap
unchanged. -/
theorem stx_append_count_null (c : Cfg) (h : Heap) (s : Int) (n : Nat) (hv : Valid c h s) :
    stx_append_count c h s none n = (c.STX_FAIL, h) := by
  simp only [stx_append_count, hv.1, Bool.not_true, Bool.false_eq_true, if_false, append_count]

/-- Whatever negative `int` value `STX_FAIL` has, the empty buffer `emptyHeap`
returns that very value as the exact shortfall of a source of `-STX_FAIL`
bytes. -/
theorem reserved_value_is_a_shortfall (v : Int) (hlo : -2147483648 ≤ v) (hneg : v < 0) :
    stx_append_count ⟨false, v⟩ emptyHeap 1004 none 0 = (v, emptyHeap) ∧
    stx_cap ⟨false, v⟩ emptyHeap.mem 1004 - stx_len ⟨false, v⟩ emptyHeap.mem 1004
      < inc_len (List.replicate v.natAbs 65) 0 ∧
    stx_append_count ⟨false, v⟩ emptyHeap 1004 (some (List.replicate v.natAbs 65)) 0
      = (v, emptyHeap) := by
  have hlen : stx_len ⟨false, v⟩ emptyHeap.mem 1004 = 0 := rfl
  have hcap : stx_cap ⟨false, v⟩ emptyHeap.mem 1004 = 0 := rfl
  have hv : Valid ⟨false, v⟩ emptyHeap 1004 := ⟨rfl, by rw [hlen]; exact Nat.zero_le _⟩
  have hI : inc_len (List.replicate v.natAbs 65) 0 = v.natAbs :=
    inc_len_replicate _ _ (by decide)
  have hgt : stx_cap ⟨false, v⟩ emptyHeap.mem 1004 - stx_len ⟨false, v⟩ emptyHeap.mem 1004
      < inc_len (List.replicate v.natAbs 65) 0 := by
    rw [hI, hcap, hlen]; omega
  refine ⟨stx_append_count_null _ _ _ _ hv, hgt, ?_⟩
  rw [stx_append_count_shortfall_exact _ _ _ _ _ hv hgt (by rw [hI, hlen]; omega), hI, hlen]
  congr 1
  omega

/-- C11, counterexample: with `STX_FAIL = INT_MIN`, a value the spec allows,
the valid buffer `helloHeap` (length 5, capacity 10) answers a null source with
`-2^31`, and answers a source of `2^31 - 5` bytes, which does not fit, with the
exact shortfall `-(5 + (2^31 - 5))`, the same value. -/
theorem C11_sentinel_is_a_shortfall :
    Valid sampleCfg helloHeap 1004 ∧ ReservedFail sampleCfg ∧
    stx_append_count sampleCfg helloHeap 1004 none 0 = (-2147483648, helloHeap) ∧
    stx_cap sampleCfg helloHeap.mem 1004 - stx_len sampleCfg helloHeap.mem 1004
      < inc_len (List.replicate 2147483643 65) 0 ∧
    stx_append_count sampleCfg helloHeap 1004 (some (List.replicate 2147483643 65)) 0
      = (-2147483648, helloHeap) := by
  have hv : Valid sampleCfg helloHeap 1004 := by decide
  have hI : inc_len (List.replicate 2147483643 65) 0 = 2147483643 :=
    inc_len_replicate _ _ (by decide)
  have hcap : stx_cap sampleCfg helloHeap.mem 1004 = 10 := by decide
  have hlen : stx_len sampleCfg helloHeap.mem 1004 = 5 := by decide
  have hgt : stx_cap sampleCfg helloHeap.mem 1004 - stx_len sampleCfg helloHeap.mem 1004
      < inc_len (List.replicate 2147483643 65) 0 := by
    rw [hI, hcap, hlen]; decide
  refine ⟨hv, by decide, stx_append_count_null _ _ _ _ hv, hgt, ?_⟩
  rw [stx_append_count_shortfall_exact _ _ _ _ _ hv hgt (by rw [hI, hlen]), hI, hlen]
  rfl

/-- C11, amended: on a valid buffer a null source is answered with `STX_FAIL`,
which is neither zero nor positive, and the heap is unchanged; against the
shortfall return of an append whose required capacity `L + I` is at most
`2^31`, `STX_FAIL` is the same value exactly when `L + I = -STX_FAIL`. -/
theorem C11_null_source (c : Cfg) (h : Heap) (s : Int) (n : Nat)
    (hv : Valid c h s) (hr : ReservedFail c) :
    stx_append_count c h s none n = (c.STX_FAIL, h) ∧
    c.STX_FAIL ≠ 0 ∧ ¬ 0 < c.STX_FAIL ∧
    ∀ (bytes : List Nat) (k : Nat),
      stx_cap c h.mem s - stx_len c h.mem s < inc_len bytes k →
      stx_len c h.mem s + inc_len bytes k ≤ 2147483648 →
      ((stx_append_count c h s (some bytes) k).1 = c.STX_FAIL ↔
        ((stx_len c h.mem s + inc_len bytes k : Nat) : Int) = -c.STX_FAIL) := by
  refine ⟨stx_append_count_null c h s n hv, hr.2.1, hr.2.2, ?_⟩
  intro bytes k hgt hint
  rw [stx_append_count_shortfall_exact c h s bytes k hv hgt hint]
  simp only
  constructor <;> intro hx <;> omega

/-- C11, witness: the buffer `helloHeap` with `STX_FAIL = INT_MIN`. -/
theorem C11_null_source_witness :
    stx_append_count sampleCfg helloHeap 1004 none 0 = (sampleCfg.STX_FAIL, helloHeap) ∧
    sampleCfg.STX_FAIL ≠ 0 ∧ ¬ 0 < sampleCfg.STX_FAIL ∧
    ∀ (bytes : List Nat) (k : Nat),
      stx_cap sampleCfg helloHeap.mem 1004 - stx_len sampleCfg helloHeap.mem 1004
        < inc_len bytes k →
      stx_len sampleCfg helloHeap.mem 1004 + inc_len bytes k ≤ 2147483648 →
      ((stx_append_count sampleCfg helloHeap 1004 (some bytes) k).1 = sampleCfg.STX_FAIL ↔
        ((stx_len sampleCfg helloHeap.mem 1004 + inc_len bytes k : Nat) : Int)
          = -sampleCfg.STX_FAIL) :=
  C11_null_source sampleCfg helloHeap 1004 0 (by decide) (by decide)


/-! ## Invariants across calls -/

/-- An append either leaves the heap as it is or is a fitting append on a
valid buffer. -/
theorem stx_append_count_cases (c : Cfg) (h : Heap) (s : Int) (src : Option (List Nat))
    (n : Nat) (hle : stx_len c h.mem s ≤ stx_cap c h.mem s) :
    (stx_append_count c h s src n).2 = h ∨
    ∃ bytes, src = some bytes ∧ Valid c h s ∧
      inc_len bytes n ≤ stx_cap c h.mem s - stx_len c h.mem s ∧
      stx_append_count c h s src n =
        (toInt32 (inc_len bytes n),
          { h with
            mem := (appended (tierOf c h.mem s) h.mem (headof c h.mem s) bytes
              (inc_len bytes n)) }) := by
  by_cases hchk : check c h.mem (headof c h.mem s) = true
  · have hv : Valid c h s := ⟨hchk, hle⟩
    cases src with
    | none => left; rw [stx_append_count_null c h s n hv]
    | some bytes =>
      by_cases hfit : inc_len bytes n ≤ stx_cap c h.mem s - stx_len c h.mem s
      · right
        exact ⟨bytes, rfl, hv, hfit, stx_append_count_fits c h s bytes n hv hfit⟩
      · left
        rw [stx_append_count_shortfall c h s bytes n hv (Nat.lt_of_not_le hfit)]
  · left
    have : check c h.mem (headof c h.mem s) = false := by simpa using hchk
    simp only [stx_append_count, this, Bool.not_false, if_true]

/-- A resize either leaves memory and handle as they are or went through
`realloc` on an accepted handle, for a non-negative capacity other than the
current one. -/
theorem stx_resize_cases (c : Cfg) (h : Heap) (s : Int) (newcap : Nat) (tmp : Int) :
    ((stx_resize c h s newcap tmp).2.2.mem = h.mem ∧ (stx_resize c h s newcap tmp).2.1 = s ∧
      (stx_resize c h s newcap tmp).2.2.size = h.size) ∨
    (check c h.mem (headof c h.mem s) = true ∧ newcap < 9223372036854775808 ∧
      newcap ≠ stx_cap c h.mem s ∧ tmp ≠ 0 ∧
      stx_resize c h s newcap tmp =
        (true, tmp + (tierOf c h.mem s).offData,
          { realloc h (headof c h.mem s) (BLOCK_SZ (tierOf c h.mem s) newcap) tmp with
            mem := (resized (tierOf c h.mem s) h (headof c h.mem s) newcap tmp) })) := by
  by_cases hchk : check c h.mem (headof c h.mem s) = true
  · by_cases hneg : isNegative newcap = true
    · left; rw [stx_resize_negative c h s newcap tmp hneg]; exact ⟨rfl, rfl, rfl⟩
    · have hneg' : isNegative newcap = false := by simpa using hneg
      have hn : newcap < 9223372036854775808 := by
        simp only [isNegative, decide_eq_false_iff_not] at hneg'; omega
      by_cases heq : newcap = stx_cap c h.mem s
      · left; rw [stx_resize_same c h s newcap tmp hchk hneg' heq]; exact ⟨rfl, rfl, rfl⟩
      · by_cases htmp : tmp = 0
        · left
          subst htmp
          rw [stx_cap_eq] at heq
          simp only [stx_resize, hchk, Bool.not_true, Bool.false_eq_true, if_false,
            resize_failed _ h _ newcap hneg' heq, headof_add, and_self]
        · right
          exact ⟨hchk, hn, heq, htmp, stx_resize_moved c h s newcap tmp hchk hneg' heq htmp⟩
  · left
    have : check c h.mem (headof c h.mem s) = false := by simpa using hchk
    simp only [stx_resize, this, Bool.not_false, if_true, and_self]

/-- C14, counterexample: the narrow buffer `helloHeap` has length 5 within
capacity 10; resized to 256 (the call returns true) it reads length 5 and
capacity 0. -/
theorem C14_narrow_resize_breaks_order :
    stx_len sampleCfg helloHeap.mem 1004 ≤ stx_cap sampleCfg helloHeap.mem 1004 ∧
    (stx_resize sampleCfg helloHeap 1004 256 2000).1 = true ∧
    stx_len sampleCfg (stx_resize sampleCfg helloHeap 1004 256 2000).2.2.mem
      (stx_resize sampleCfg helloHeap 1004 256 2000).2.1 = 5 ∧
    stx_cap sampleCfg (stx_resize sampleCfg helloHeap 1004 256 2000).2.2.mem
      (stx_resize sampleCfg helloHeap 1004 256 2000).2.1 = 0 := by
  decide

/-- C14, amended: on a buffer with a live block whose length is within its
capacity, the length is within the capacity after any `stx_append_count` call,
and after any `stx_resize` call that, on a narrow buffer, asks for a capacity
below 256, whether the call succeeds or not. -/
theorem C14_length_within_capacity (c : Cfg) (h : Heap) (s : Int)
    (hle : stx_len c h.mem s ≤ stx_cap c h.mem s) (hl : Live c h s) :
    (∀ (src : Option (List Nat)) (n : Nat),
      stx_len c (stx_append_count c h s src n).2.mem s
        ≤ stx_cap c (stx_append_count c h s src n).2.mem s) ∧
    (∀ (newcap : Nat) (tmp : Int), (tierOf c h.mem s = Tier.short → newcap < 256) →
      stx_len c (stx_resize c h s newcap tmp).2.2.mem (stx_resize c h s newcap tmp).2.1
        ≤ stx_cap c (stx_resize c h s newcap tmp).2.2.mem (stx_resize c h s newcap tmp).2.1) := by
  constructor
  · intro src n
    rcases stx_append_count_cases c h s src n hle with hsame | ⟨bytes, _, hv, hfit, hrun⟩
    · rw [hsame]; exact hle
    · rw [hrun]
      simp only
      obtain ⟨_, _, a3, a4, _⟩ := appended_spec c h.mem s bytes (inc_len bytes n) hle hfit
      rw [a3, a4]; omega
  · intro newcap tmp htier
    rcases stx_resize_cases c h s newcap tmp with ⟨hm, hs, _⟩ | ⟨_, hn, _, htmp, hrun⟩
    · rw [hm, hs]; exact hle
    · rw [hrun]
      simp only
      obtain ⟨_, _, _, z4, z5, _⟩ := stx_resized_spec c h s newcap tmp htmp hn hl
      rw [z4, z5]
      have : newcap % 256 ^ (tierOf c h.mem s).width = newcap := by
        apply Nat.mod_eq_of_lt
        cases hT : tierOf c h.mem s with
        | short => have := htier hT; simp only [Tier.width]; omega
        | long => simp only [Tier.width]; omega
      rw [this]
      exact Nat.min_le_right _ _

/-- C14, witness: the buffer `helloHeap`. -/
theorem C14_length_within_capacity_witness :
    (∀ (src : Option (List Nat)) (n : Nat),
      stx_len sampleCfg (stx_append_count sampleCfg helloHeap 1004 src n).2.mem 1004
        ≤ stx_cap sampleCfg (stx_append_count sampleCfg helloHeap 1004 src n).2.mem 1004) ∧
    (∀ (newcap : Nat) (tmp : Int),
      (tierOf sampleCfg helloHeap.mem 1004 = Tier.short → newcap < 256) →
      stx_len sampleCfg (stx_resize sampleCfg helloHeap 1004 newcap tmp).2.2.mem
          (stx_resize sampleCfg helloHeap 1004 newcap tmp).2.1
        ≤ stx_cap sampleCfg (stx_resize sampleCfg helloHeap 1004 newcap tmp).2.2.mem
          (stx_resize sampleCfg helloHeap 1004 newcap tmp).2.1) :=
  C14_length_within_capacity sampleCfg helloHeap 1004 (by decide) (by decide)

/-- C15, counterexample: the narrow buffer `helloHeap` has both terminators in
place; resized to 258 (the call returns true) it reads capacity 2, and the
content byte at offset 2 is the letter `l`. -/
theorem C15_narrow_resize_loses_sentinel :
    Terminated sampleCfg helloHeap.mem 1004 ∧
    (stx_resize sampleCfg helloHeap 1004 258 2000).1 = true ∧
    stx_cap sampleCfg (stx_resize sampleCfg helloHeap 1004 258 2000).2.2.mem
      (stx_resize sampleCfg helloHeap 1004 258 2000).2.1 = 2 ∧
    content (stx_resize sampleCfg helloHeap 1004 258 2000).2.2.mem
      (stx_resize sampleCfg helloHeap 1004 258 2000).2.1 2 = 108 := by
  decide

/-- C15, amended: on a buffer with a live block, length within capacity and
both terminators in place, the bytes at offset `stx_len` and at offset
`stx_cap` are zero after any `stx_append_count` call, and after any
`stx_resize` call that, on a narrow buffer, asks for a capacity below 256. -/
theorem C15_terminators_kept (c : Cfg) (h : Heap) (s : Int)
    (hle : stx_len c h.mem s ≤ stx_cap c h.mem s) (hl : Live c h s)
    (ht : Terminated c h.mem s) :
    (∀ (src : Option (List Nat)) (n : Nat),
      Terminated c (stx_append_count c h s src n).2.mem s) ∧
    (∀ (newcap : Nat) (tmp : Int), (tierOf c h.mem s = Tier.short → newcap < 256) →
      Terminated c (stx_resize c h s newcap tmp).2.2.mem (stx_resize c h s newcap tmp).2.1) := by
  constructor
  · intro src n
    rcases stx_append_count_cases c h s src n hle with hsame | ⟨bytes, _, hv, hfit, hrun⟩
    · rw [hsame]; exact ht
    · rw [hrun]
      simp only
      obtain ⟨_, _, a3, a4, _, _, a7⟩ := appended_spec c h.mem s bytes (inc_len bytes n) hle hfit
      refine ⟨by rw [a3]; exact a7, ?_⟩
      rw [a4]
      by_cases hend : stx_len c h.mem s + inc_len bytes n = stx_cap c h.mem s
      · rw [← hend]; exact a7
      · have hcap := ht.2
        simp only [content] at hcap ⊢
        rw [← hcap]
        obtain ⟨_, h2, h3, _, h5, _, _, _⟩ := (tierOf c h.mem s).layout
        have hs := headof_add c h.mem s
        have hle' := hle
        rw [stx_len_eq] at hend hfit hle'
        rw [stx_cap_eq] at hend hfit hle' ⊢
        exact appended_outside _ _ _ _ _ _ (Or.inr (by omega)) (Or.inr (by omega))
  · intro newcap tmp htier
    rcases stx_resize_cases c h s newcap tmp with ⟨hm, hs, _⟩ | ⟨_, hn, _, htmp, hrun⟩
    · rw [hm, hs]; exact ht
    · rw [hrun]
      simp only
      obtain ⟨_, _, _, z4, z5, z6, z7, _⟩ := stx_resized_spec c h s newcap tmp htmp hn hl
      have hcap : newcap % 256 ^ (tierOf c h.mem s).width = newcap := by
        apply Nat.mod_eq_of_lt
        cases hT : tierOf c h.mem s with
        | short => have := htier hT; simp only [Tier.width]; omega
        | long => simp only [Tier.width]; omega
      refine ⟨?_, by rw [z4, hcap]; exact z7⟩
      rw [z5]
      by_cases hlt : stx_len c h.mem s < newcap
      · rw [Nat.min_eq_left (Nat.le_of_lt hlt), z6 _ hlt hle]; exact ht.1
      · rw [Nat.min_eq_right (Nat.le_of_not_lt hlt)]; exact z7

/-- C15, witness: the buffer `helloHeap`. -/
theorem C15_terminators_kept_witness :
    (∀ (src : Option (List Nat)) (n : Nat),
      Terminated sampleCfg (stx_append_count sampleCfg helloHeap 1004 src n).2.mem 1004) ∧
    (∀ (newcap : Nat) (tmp : Int),
      (tierOf sampleCfg helloHeap.mem 1004 = Tier.short → newcap < 256) →
      Terminated sampleCfg (stx_resize sampleCfg helloHeap 1004 newcap tmp).2.2.mem
        (stx_resize sampleCfg helloHeap 1004 newcap tmp).2.1) :=
  C15_terminators_kept sampleCfg helloHeap 1004 (by decide) (by decide) (by decide)


/-! ## Tier parity -/

theorem realloc_size_new (h : Heap) (p : Int) (sz : Nat) (q : Int) (hq : q ≠ 0) :
    (realloc h p sz q).size q = sz := by
  simp only [realloc, if_neg hq, if_true]

/-- One call on a buffer in good order that the validator accepts does what
the same call does on the view the buffer shows, and leaves the buffer in good
order. -/
theorem call_shows (c : Cfg) (T : Tier) (b : Buf) (v : View) (k : Call)
    (hg : Good c T b) (hchk : check c b.1.mem (headof c b.1.mem b.2) = true)
    (hsh : Shows c b v) (hk : k.small) :
    (call c T b k).1 = (v.call c k).1 ∧ Shows c (call c T b k).2 (v.call c k).2 ∧
      Good c T (call c T b k).2 := by
  obtain ⟨h, s⟩ := b
  obtain ⟨hT, hle, hl, h256⟩ := hg
  obtain ⟨hcap, hlen, hdata⟩ := hsh
  simp only at hT hle hl h256 hcap hlen hdata hchk
  have hv : Valid c h s := ⟨hchk, hle⟩
  cases k with
  | append src n =>
    cases src with
    | none =>
      simp only [call, View.call, stx_append_count_null c h s n hv]
      exact ⟨trivial, ⟨hcap, hlen, hdata⟩, ⟨hT, hle, hl, h256⟩⟩
    | some bytes =>
      by_cases hfit : inc_len bytes n ≤ stx_cap c h.mem s - stx_len c h.mem s
      · have hnot : ¬ (v.cap - v.len < inc_len bytes n) := by rw [← hcap, ← hlen]; omega
        simp only [call, View.call, stx_append_count_fits c h s bytes n hv hfit, if_neg hnot]
        obtain ⟨a1, _, a3, a4, a5, a6, _⟩ :=
          appended_spec c h.mem s bytes (inc_len bytes n) hle hfit
        refine ⟨trivial, ⟨?_, ?_, ?_⟩, ⟨?_, ?_, ?_, ?_⟩⟩
        · simp only; rw [a4, hcap]
        · simp only; rw [a3, hlen]
        · intro i hi
          simp only at hi ⊢
          by_cases hlt : i < v.len
          · rw [if_pos hlt, a5 i (by omega), hdata i hlt]
          · rw [if_neg hlt]
            have := a6 (i - v.len) (by omega)
            rw [show stx_len c h.mem s + (i - v.len) = i by omega] at this
            exact this
        · simp only; rw [a1, hT]
        · simp only; rw [a3, a4]; omega
        · unfold Live at hl ⊢
          simp only
          have hH : headof c (appended (tierOf c h.mem s) h.mem (headof c h.mem s) bytes
              (inc_len bytes n)) s = headof c h.mem s :=
            congrArg (fun U : Tier => s - U.offData) a1
          rw [a1, a4, hH]; exact hl
        · simp only; rw [a4]; exact h256
      · have hgt : stx_cap c h.mem s - stx_len c h.mem s < inc_len bytes n :=
          Nat.lt_of_not_le hfit
        have hyes : v.cap - v.len < inc_len bytes n := by rw [← hcap, ← hlen]; exact hgt
        simp only [call, View.call, stx_append_count_shortfall c h s bytes n hv hgt,
          if_pos hyes, hlen]
        exact ⟨trivial, ⟨hcap, hlen, hdata⟩, ⟨hT, hle, hl, h256⟩⟩
  | resize newcap tS tL =>
    obtain ⟨hsmall, htS, htL⟩ := hk
    have htmp : answer T tS tL ≠ 0 := by cases T <;> simp only [answer] <;> assumption
    have hn : newcap < 9223372036854775808 := by omega
    by_cases heq : newcap = stx_cap c h.mem s
    · simp only [call, View.call,
        stx_resize_same c h s newcap _ hchk (isNegative_of_lt hn) heq, if_true]
      refine ⟨trivial, ⟨?_, ?_, ?_⟩, ⟨hT, hle, hl, h256⟩⟩
      · simp only; exact heq.symm
      · simp only; rw [hlen, Nat.min_eq_left (by omega)]
      · intro i hi
        simp only at hi ⊢
        exact hdata i (by omega)
    · simp only [call, View.call,
        stx_resize_moved c h s newcap _ hchk (isNegative_of_lt hn) heq htmp, if_true]
      obtain ⟨z1, _, _, z4, z5, z6, _, _⟩ := stx_resized_spec c h s newcap _ htmp hn hl
      have hmod : newcap % 256 ^ (tierOf c h.mem s).width = newcap := by
        apply Nat.mod_eq_of_lt
        have := (tierOf c h.mem s).layout.2.2.2.2.2.2.1
        calc newcap < 256 ^ 1 := by omega
          _ ≤ 256 ^ (tierOf c h.mem s).width := Nat.pow_le_pow_right (by decide) this
      rw [hmod] at z4
      refine ⟨trivial, ⟨?_, ?_, ?_⟩, ⟨?_, ?_, ?_, ?_⟩⟩
      · simp only; exact z4
      · simp only; rw [z5, hlen]
      · intro i hi
        simp only at hi ⊢
        rw [z6 i (by omega) (by omega)]
        exact hdata i (by omega)
      · simp only; rw [z1, hT]
      · simp only; rw [z4, z5]; exact Nat.min_le_right _ _
      · unfold Live
        simp only
        have hH : headof c (resized (tierOf c h.mem s) h (headof c h.mem s) newcap
            (answer T tS tL)) (answer T tS tL + (tierOf c h.mem s).offData)
            = answer T tS tL := by
          have hdef : ∀ (m : Mem) (x : Int), headof c m x = x - (tierOf c m x).offData :=
            fun _ _ => rfl
          rw [hdef, z1]; omega
        rw [z1, z4, hH, realloc_size_new _ _ _ _ htmp, BLOCK_SZ_of_lt _ _ hn]
      · simp only; rw [z4]; exact hsmall

theorem observe_of_shows (c : Cfg) (b : Buf) (v : View) (hsh : Shows c b v) :
    observe c b = v.observe := by
  obtain ⟨hcap, hlen, hdata⟩ := hsh
  simp only [observe, View.observe, hcap, hlen]
  congr 2
  apply List.map_congr_left
  intro i hi
  exact hdata i (List.mem_range.mp hi)

/-- The run of a sequence of small calls on a buffer in good order, accepted
before every call, is the run of the sequence on the view it shows. -/
theorem trace_of_shows (c : Cfg) (T : Tier) (calls : List Call) :
    ∀ (b : Buf) (v : View), Good c T b → Shows c b v → (∀ k ∈ calls, k.small) →
      accepted c T b calls = true → trace c T b calls = View.trace c v calls := by
  induction calls with
  | nil => intro b v _ _ _ _; rfl
  | cons k ks ih =>
    intro b v hg hsh hsmall hacc
    simp only [accepted, Bool.and_eq_true] at hacc
    obtain ⟨r1, r2, r3⟩ := call_shows c T b v k hg hacc.1 hsh
      (hsmall k (List.mem_cons_self _ _))
    simp only [trace, View.trace]
    rw [r1, observe_of_shows c _ _ r2,
      ih _ _ r3 r2 (fun k' hk' => hsmall k' (List.mem_cons_of_mem _ hk')) hacc.2]


/-- C12, counterexample: the narrow buffer `helloHeap` and the wide buffer
`helloWide` read the same (capacity 10, length 5, content `"hello"`); after the
one call `stx_resize(&h, 300)`, which returns true on both, the narrow buffer
reads capacity 44 and the wide buffer capacity 300. -/
theorem C12_parity_breaks_at_256 :
    Good sampleCfg Tier.short (helloHeap, 1004) ∧ Good sampleCfg Tier.long (helloWide, 1018) ∧
    Same sampleCfg (helloHeap, 1004) (helloWide, 1018) ∧
    accepted sampleCfg Tier.short (helloHeap, 1004) [Call.resize 300 2000 2000] = true ∧
    accepted sampleCfg Tier.long (helloWide, 1018) [Call.resize 300 2000 2000] = true ∧
    trace sampleCfg Tier.short (helloHeap, 1004) [Call.resize 300 2000 2000]
      = [(1, 44, 5, hello)] ∧
    trace sampleCfg Tier.long (helloWide, 1018) [Call.resize 300 2000 2000]
      = [(1, 300, 5, hello)] := by
  decide

/-- C12, amended: a narrow and a wide buffer in good order (length within
capacity, capacity below 256, live block) that read the same go through any
sequence of `stx_append_count` and `stx_resize` calls with the same return
value from every call and the same `stx_cap`, `stx_len` and content below the
length after every call, provided every resize asks for a capacity below 256,
the allocator never fails, and the validator accepts each handle before every
call. -/
theorem C12_tier_parity (c : Cfg) (bN bW : Buf) (calls : List Call)
    (hN : Good c Tier.short bN) (hW : Good c Tier.long bW) (hsame : Same c bN bW)
    (hsmall : ∀ k ∈ calls, k.small)
    (haN : accepted c Tier.short bN calls = true)
    (haW : accepted c Tier.long bW calls = true) :
    trace c Tier.short bN calls = trace c Tier.long bW calls := by
  have hvN : Shows c bN ⟨stx_cap c bN.1.mem bN.2, stx_len c bN.1.mem bN.2,
      content bN.1.mem bN.2⟩ := ⟨rfl, rfl, fun _ _ => rfl⟩
  have hvW : Shows c bW ⟨stx_cap c bN.1.mem bN.2, stx_len c bN.1.mem bN.2,
      content bN.1.mem bN.2⟩ :=
    ⟨hsame.1.symm, hsame.2.1.symm, fun i hi => (hsame.2.2 i hi).symm⟩
  rw [trace_of_shows c Tier.short calls bN _ hN hvN hsmall haN,
    trace_of_shows c Tier.long calls bW _ hW hvW hsmall haW]

/-- C12, witness: the buffers `helloHeap` and `helloWide` through an append
that does not fit, a resize to 20, the append again, a null source and a resize
to 3. -/
theorem C12_tier_parity_witness :
    trace sampleCfg Tier.short (helloHeap, 1004)
      [Call.append (some world) 0, Call.resize 20 2000 2000, Call.append (some world) 0,
        Call.append none 7, Call.resize 3 2000 2000]
    = trace sampleCfg Tier.long (helloWide, 1018)
      [Call.append (some world) 0, Call.resize 20 2000 2000, Call.append (some world) 0,
        Call.append none 7, Call.resize 3 2000 2000] :=
  C12_tier_parity sampleCfg (helloHeap, 1004) (helloWide, 1018) _ (by decide) (by decide)
    (by decide) (by decide) (by decide) (by decide)

end Stx
